import Mathlib

/-!
A verification development for the snarkVM instruction-set virtual machine core:
the value/mode model, the register store discipline, the commitment and hash
instruction families (commit.ped256, hash.psd4), instruction text/byte
round-trips, path-based field resolution into structured values, ProgramID
parsing, and the circuit integer from_field cast.

Functions whose Rust sources are available are translated directly; the parts of
the repository that are only exercised here through their tests or callers
(the shared evaluate macro bodies, the Registers store, the operation
parsers/encoders, Identifier parsing) are modelled from the specification, as
marked in their doc comments.
-/

set_option maxRecDepth 10000

deriving instance DecidableEq for Except

namespace SnarkVM

/-! ## Shared utilities: characters, digits, bits, bytes -/

/-- Splits a character list at the first element failing the predicate. -/
def splitWhile (p : Char → Bool) : List Char → List Char × List Char
  | [] => ([], [])
  | c :: cs => if p c then let r := splitWhile p cs; (c :: r.1, r.2) else ([], c :: cs)

/-- True when the list is empty or its head fails the predicate (so a
token scan stops right there). -/
def headStops (p : Char → Bool) : List Char → Bool
  | [] => true
  | c :: _ => !p c

/-- The decimal digit character for a value below ten. -/
def digitChar (n : Nat) : Char := Char.ofNat (48 + n)

/-- Decimal digit characters, structurally recursive on a fuel bound (the
fuel is always sufficient, see `natDigits_eq`). -/
def natDigitsAux : Nat → Nat → List Char
  | 0, _ => []
  | fuel + 1, n =>
    if n < 10 then [digitChar n]
    else natDigitsAux fuel (n / 10) ++ [digitChar (n % 10)]

/-- Decimal digit characters of a natural number, most significant first. -/
def natDigits (n : Nat) : List Char := natDigitsAux (n + 1) n

/-- Reads a digit-character list back as a natural number. -/
def digitsToNat (ds : List Char) : Nat :=
  ds.foldl (fun a c => 10 * a + (c.toNat - 48)) 0

/-- Little-endian bit expansion of fixed width. -/
def natToLEBits : Nat → Nat → List Bool
  | 0, _ => []
  | w + 1, n => (n % 2 == 1) :: natToLEBits w (n / 2)

/-- Value of a little-endian bit list. -/
def leBitsToNat : List Bool → Nat
  | [] => 0
  | b :: bs => (if b then 1 else 0) + 2 * leBitsToNat bs

/-- Little-endian byte expansion of fixed width. -/
def natToLEBytes : Nat → Nat → List Nat
  | 0, _ => []
  | w + 1, n => n % 256 :: natToLEBytes w (n / 256)

/-- Value of a little-endian byte list. -/
def leBytesToNat : List Nat → Nat
  | [] => 0
  | b :: bs => b + 256 * leBytesToNat bs

/-- Reads exactly `n` bytes from a stream, returning them and the remainder. -/
def readBytes : Nat → List Nat → Option (List Nat × List Nat)
  | 0, bs => some ([], bs)
  | _ + 1, [] => none
  | n + 1, b :: bs => (readBytes n bs).map fun r => (b :: r.1, r.2)

/-- Encodes characters as four little-endian bytes each (a Unicode scalar
value always fits in 32 bits). -/
def charsToBytes (cs : List Char) : List Nat :=
  cs.flatMap fun c => natToLEBytes 4 c.toNat

/-- Reads exactly `n` characters (of four bytes each) from a byte stream. -/
def readChars : Nat → List Nat → Option (List Char × List Nat)
  | 0, bs => some ([], bs)
  | n + 1, bs =>
    (readBytes 4 bs).bind fun r =>
      (readChars n r.2).map fun q => (Char.ofNat (leBytesToNat r.1) :: q.1, q.2)

/-- Consumes an expected prefix from a character stream. -/
def expectChars (pre : List Char) (s : List Char) : Option (List Char) :=
  if s.take pre.length = pre then some (s.drop pre.length) else none

/-! ## Mode

Mirrors the `Mode` enum of the circuits layer: the visibility tag carried by
every Literal, ordered Constant < Public < Private for propagation. -/

inductive Mode where
  | Constant
  | Public
  | Private
deriving DecidableEq, Repr

/-- Position of a mode in the propagation order Constant < Public < Private. -/
def Mode.toNat : Mode → Nat
  | .Constant => 0
  | .Public => 1
  | .Private => 2

/-- Maximum of two modes in the propagation order. -/
def Mode.max (a b : Mode) : Mode := if a.toNat ≤ b.toNat then b else a

/-- Maximum over a list of modes, starting from the bottom element Constant. -/
def modeFold (ms : List Mode) : Mode := ms.foldl Mode.max .Constant

/-! ## Literal

Mirrors the circuits `Literal` enum: Address, Boolean, Field, Group,
I8..I128, U8..U128, Scalar, String, each carrying a Mode.  The ten integer
variants are represented by the two width-indexed constructors `intS` and
`intU` (an isomorphic packaging of I8..I128 and U8..U128). Addresses carry
their bech32 textual form (the bech32 codec itself belongs to the excluded
account layer). -/

inductive IntWidth where
  | W8
  | W16
  | W32
  | W64
  | W128
deriving DecidableEq, Repr

/-- Bit width of an integer literal type. -/
def IntWidth.bits : IntWidth → Nat
  | .W8 => 8
  | .W16 => 16
  | .W32 => 32
  | .W64 => 64
  | .W128 => 128

inductive Literal where
  | address (text : String) (mode : Mode)
  | boolean (b : Bool) (mode : Mode)
  | field (value : Nat) (mode : Mode)
  | group (value : Nat) (mode : Mode)
  | intS (w : IntWidth) (value : Int) (mode : Mode)
  | intU (w : IntWidth) (value : Nat) (mode : Mode)
  | scalar (value : Nat) (mode : Mode)
  | string (s : String) (mode : Mode)
deriving DecidableEq, Repr

/-- The mode attached to a literal. -/
def Literal.mode : Literal → Mode
  | .address _ m => m
  | .boolean _ m => m
  | .field _ m => m
  | .group _ m => m
  | .intS _ _ m => m
  | .intU _ _ m => m
  | .scalar _ m => m
  | .string _ m => m

/-- Size in bits of a base field element (BLS12-377 scalar field, the base
field of the embedded Edwards curve: a 253-bit prime). -/
def FIELD_SIZE_IN_BITS : Nat := 253

/-- Size in bits of a scalar field element of the embedded curve (251 bits). -/
def SCALAR_SIZE_IN_BITS : Nat := 251

/-- Modelled from the spec: the numeric payload behind a bech32 address text
(the bech32 codec is part of the excluded account layer); only its 253-bit
width is observable to the instruction core. -/
def addressValue (s : String) : Nat :=
  leBytesToNat (s.data.map Char.toNat) % 2 ^ FIELD_SIZE_IN_BITS

/-- Modelled from the spec: canonical little-endian bit flattening of a
literal (the circuits ToBits instances): booleans are one bit, integers their
declared width, field and group elements 253 bits, scalars 251 bits, strings
eight bits per byte. -/
def Literal.toBitsLE : Literal → List Bool
  | .address s _ => natToLEBits FIELD_SIZE_IN_BITS (addressValue s)
  | .boolean b _ => [b]
  | .field x _ => natToLEBits FIELD_SIZE_IN_BITS x
  | .group x _ => natToLEBits FIELD_SIZE_IN_BITS x
  | .intS w x _ => natToLEBits w.bits (x % (2 ^ w.bits : Nat)).toNat
  | .intU w x _ => natToLEBits w.bits x
  | .scalar x _ => natToLEBits SCALAR_SIZE_IN_BITS x
  | .string s _ => s.data.flatMap fun c => natToLEBits 8 c.toNat

/-! ## Value (bytecode layer)

Mirrors the bytecode `Value` enum: a single literal, or a composite of a
named struct with its literal members in declaration order. -/

inductive Value where
  | literal (l : Literal)
  | composite (name : String) (members : List Literal)
deriving DecidableEq, Repr

/-- Canonical ordered bit flattening of a value: composite members are
flattened in declared order. -/
def Value.toBitsLE : Value → List Bool
  | .literal l => l.toBitsLE
  | .composite _ ls => ls.flatMap Literal.toBitsLE

/-- The modes of every literal leaf of a value, in declared order. -/
def Value.leafModes : Value → List Mode
  | .literal l => [l.mode]
  | .composite _ ls => ls.map Literal.mode

/-! ## Registers

Modelled from the spec: the per-invocation register store, a table from
register index to (defined, assigned value), with the define/assign/load
lifecycle (double-define errors, assign requires defined-and-unassigned,
load requires assigned, no implicit defaults). -/

abbrev Registers := List (Nat × Option Value)

/-- Looks up the state of a register index: `none` when undefined,
`some none` when defined but unassigned, `some (some v)` when assigned. -/
def Registers.lookup : Registers → Nat → Option (Option Value)
  | [], _ => none
  | (i, v) :: rest, j => if i = j then some v else Registers.lookup rest j

/-- Declares a register index; declaring an already-defined index errors. -/
def Registers.define (rs : Registers) (i : Nat) : Except String Registers :=
  match rs.lookup i with
  | some _ => .error ("Register is already defined")
  | none => .ok (rs ++ [(i, none)])

/-- Replaces the stored value at an index. -/
def Registers.set : Registers → Nat → Value → Registers
  | [], _, _ => []
  | (j, w) :: rest, i, v =>
    if j = i then (j, some v) :: rest else (j, w) :: Registers.set rest i v

/-- Assigns a value to a register; the register must be defined and not yet
assigned, otherwise an error is raised. -/
def Registers.assign (rs : Registers) (i : Nat) (v : Value) : Except String Registers :=
  match rs.lookup i with
  | none => .error ("Register is not defined")
  | some (some _) => .error ("Register is already assigned")
  | some none => .ok (Registers.set rs i v)

/-- Loads the value of a register; halts when the register was never
assigned (there are no implicit default values). -/
def Registers.load (rs : Registers) (i : Nat) : Except String Value :=
  match rs.lookup i with
  | some (some v) => .ok v
  | some none => .error ("Register is not assigned")
  | none => .error ("Register is not defined")

/-! ## Operand, operations, instructions

Mirrors the bytecode operand/operation arity abstraction: an operand is a
register reference or a literal immediate; a unary operation holds one
operand and a destination register, a binary operation two operands and a
destination. `CommitPed256` wraps a binary operation, `HashPsd4` a unary
one, exactly as in their Rust sources. -/

inductive Operand where
  | register (idx : Nat)
  | literal (l : Literal)
deriving DecidableEq, Repr

/-- Resolves an operand against the register store: a register operand loads
from the store, a literal operand yields itself. -/
def Operand.resolve (regs : Registers) : Operand → Except String Value
  | .register i => Registers.load regs i
  | .literal l => .ok (Value.literal l)

structure BinaryOperation where
  first : Operand
  second : Operand
  destination : Nat
deriving DecidableEq, Repr

structure UnaryOperation where
  operand : Operand
  destination : Nat
deriving DecidableEq, Repr

/-- Ordered operand list of a binary operation. -/
def BinaryOperation.operands (op : BinaryOperation) : List Operand :=
  [op.first, op.second]

/-- Ordered operand list of a unary operation. -/
def UnaryOperation.operands (op : UnaryOperation) : List Operand :=
  [op.operand]

inductive Instruction where
  | commitPed256 (op : BinaryOperation)
  | hashPsd4 (op : UnaryOperation)
deriving DecidableEq, Repr

/-- The published opcode mnemonic of CommitPed256 (`Opcode::opcode`). -/
def commitPed256Opcode : String := "commit.ped256"

/-- The published opcode mnemonic of HashPsd4 (`Opcode::opcode`). -/
def hashPsd4Opcode : String := "hash.psd4"

/-- The opcode mnemonic of an instruction. -/
def Instruction.opcode : Instruction → String
  | .commitPed256 _ => commitPed256Opcode
  | .hashPsd4 _ => hashPsd4Opcode

/-- Ordered operand list of an instruction. -/
def Instruction.operands : Instruction → List Operand
  | .commitPed256 op => op.operands
  | .hashPsd4 op => op.operands

/-- Destination register of an instruction. -/
def Instruction.destination : Instruction → Nat
  | .commitPed256 op => op.destination
  | .hashPsd4 op => op.destination

/-! ## Evaluate/halt protocol

Modelled from the spec: the shared six-step execution contract of the
commitment and hash instruction families (the `impl_commit_evaluate!` and
`impl_poseidon_evaluate!` macro bodies): resolve operands, flatten, check
the domain constraint, invoke the opaque primitive, attach the maximum
consumed mode, assign the destination. A halt is a hard abort, represented
as the error side of `Except`. -/

/-- Modelled from the spec: the 256-bit Pedersen commitment primitive, an
opaque function of the excluded circuit-arithmetic backend; only its
input/output shape (committed bits plus scalar randomness to a group
element) is relevant to the core, so a deterministic stand-in is used. -/
def pedersen256Commit (bits : List Bool) (randomness : Nat) : Nat :=
  (leBitsToNat bits + 97 * randomness + 1) % 2 ^ FIELD_SIZE_IN_BITS

/-- Modelled from the spec: the rate-4 Poseidon hash primitive, an opaque
function of the excluded backend; a deterministic stand-in with the right
shape (field elements to one field element). -/
def poseidon4Hash (inputs : List Nat) : Nat :=
  (inputs.foldl (fun a f => 31 * a + f + 7) 4) % 2 ^ FIELD_SIZE_IN_BITS

/-- Packs a bit sequence into field elements, 252 bits per element. -/
def chunkToFields : List Bool → List Nat
  | [] => []
  | b :: bs =>
    leBitsToNat ((b :: bs).take 252) :: chunkToFields ((b :: bs).drop 252)
termination_by l => l.length
decreasing_by simp [List.length_drop]; omega

/-- Modelled from the spec: the field-element flattening of a literal (the
circuits ToFields instances): natively field-representable literals become
one field element each, strings are packed from their bits. -/
def Literal.toFields : Literal → List Nat
  | .address s _ => [addressValue s]
  | .boolean b _ => [if b then 1 else 0]
  | .field x _ => [x]
  | .group x _ => [x]
  | .intS w x _ => [(x % (2 ^ w.bits : Nat)).toNat]
  | .intU _ x _ => [x]
  | .scalar x _ => [x]
  | .string s _ => chunkToFields ((Literal.string s Mode.Private).toBitsLE)

/-- The halt message of the 256-bit Pedersen bound check. -/
def ped256BoundMessage : String := "The Pedersen hash input cannot exceed 256 bits."

/-- The halt message of the hash.psd4 literal-type check. -/
def psd4InvalidMessage : String := "Invalid \x27hash.psd4\x27 instruction"

/-- Modelled from the spec: evaluation of the sampled instruction set.
commit.ped256 resolves both operands, requires the second to be a scalar
(the commitment randomness, not flattened), halts when the flattened first
operand exceeds 256 bits, and otherwise assigns a group literal carrying
the maximum consumed mode. hash.psd4 resolves its operand, rejects
Boolean/Group/Address literals, and otherwise assigns a field literal
carrying the maximum consumed mode (composites are accepted by flattening
each leaf to field elements). -/
def Instruction.evaluate (i : Instruction) (regs : Registers) : Except String Registers :=
  match i with
  | .commitPed256 op =>
    match op.first.resolve regs, op.second.resolve regs with
    | .ok v1, .ok v2 =>
      match v2 with
      | .literal (.scalar r rm) =>
        if 256 < v1.toBitsLE.length then .error ped256BoundMessage
        else
          Registers.assign regs op.destination
            (Value.literal
              (.group (pedersen256Commit v1.toBitsLE r)
                (modeFold (v1.leafModes ++ [rm]))))
      | _ => .error ("Invalid \x27commit.ped256\x27 instruction")
    | .error e, _ => .error e
    | .ok _, .error e => .error e
  | .hashPsd4 op =>
    match op.operand.resolve regs with
    | .ok v =>
      match v with
      | .literal l =>
        match l with
        | .boolean _ _ => .error psd4InvalidMessage
        | .group _ _ => .error psd4InvalidMessage
        | .address _ _ => .error psd4InvalidMessage
        | _ =>
          Registers.assign regs op.destination
            (Value.literal (.field (poseidon4Hash l.toFields) l.mode))
      | .composite _ ls =>
        Registers.assign regs op.destination
          (Value.literal
            (.field (poseidon4Hash (ls.flatMap Literal.toFields))
              (modeFold (ls.map Literal.mode))))
    | .error e => .error e

/-! ## Textual rendering and parsing

Modelled from the spec: the textual instruction syntax
`opcode operand* "into" register ";"`, with suffix-typed literal immediates
(`1field`, `true`, `"text"`, ...) carrying an optional visibility suffix
`.constant | .public | .private` (defaulting to private), registers written
`r{index}`, and opcode dispatch on the leading mnemonic token. Rendering
always prints the visibility suffix. -/

/-- Visibility suffix text of a mode. -/
def modeText : Mode → List Char
  | .Constant => (".constant").data
  | .Public => (".public").data
  | .Private => (".private").data

/-- Type-suffix text of an integer literal type, such as `i8` or `u128`. -/
def intSuffix (signed : Bool) (w : IntWidth) : List Char :=
  (if signed then 'i' else 'u') :: natDigits w.bits

/-- Signed decimal text. -/
def intText (x : Int) : List Char :=
  if x < 0 then '-' :: natDigits (-x).toNat else natDigits x.toNat

/-- Textual rendering of a literal, with its visibility suffix. -/
def Literal.displayChars : Literal → List Char
  | .address s m => s.data ++ modeText m
  | .boolean b m => (if b then ("true").data else ("false").data) ++ modeText m
  | .field x m => natDigits x ++ ("field").data ++ modeText m
  | .group x m => natDigits x ++ ("group").data ++ modeText m
  | .intS w x m => intText x ++ intSuffix true w ++ modeText m
  | .intU w x m => natDigits x ++ intSuffix false w ++ modeText m
  | .scalar x m => natDigits x ++ ("scalar").data ++ modeText m
  | .string s m => '"' :: s.data ++ ['"'] ++ modeText m

/-- Textual rendering of an operand. -/
def Operand.displayChars : Operand → List Char
  | .register i => 'r' :: natDigits i
  | .literal l => l.displayChars

/-- Textual rendering of a binary operation body: operands then destination. -/
def BinaryOperation.displayChars (op : BinaryOperation) : List Char :=
  op.first.displayChars ++ [' '] ++ op.second.displayChars
    ++ (" into r").data ++ natDigits op.destination

/-- Textual rendering of a unary operation body. -/
def UnaryOperation.displayChars (op : UnaryOperation) : List Char :=
  op.operand.displayChars ++ (" into r").data ++ natDigits op.destination

/-- Textual rendering of an instruction: mnemonic, operation body, semicolon. -/
def Instruction.displayChars : Instruction → List Char
  | .commitPed256 op => commitPed256Opcode.data ++ [' '] ++ op.displayChars ++ [';']
  | .hashPsd4 op => hashPsd4Opcode.data ++ [' '] ++ op.displayChars ++ [';']

/-- Textual rendering of an instruction as a string. -/
def Instruction.display (i : Instruction) : String := String.mk i.displayChars

/-- Parses a decimal natural number. -/
def parseNatChars (s : List Char) : Option (Nat × List Char) :=
  let r := splitWhile Char.isDigit s
  if r.1 = [] then none else some (digitsToNat r.1, r.2)

/-- Parses an optional visibility suffix; absent means private (the default
is context-determined, commonly private). -/
def parseModeOpt (s : List Char) : Option (Mode × List Char) :=
  match s with
  | [] => some (.Private, [])
  | c :: rest =>
    if c = '.' then
      let r := splitWhile Char.isAlpha rest
      if r.1 = ("constant").data then some (.Constant, r.2)
      else if r.1 = ("public").data then some (.Public, r.2)
      else if r.1 = ("private").data then some (.Private, r.2)
      else none
    else some (.Private, c :: rest)

/-- Recognizes an integer type suffix. -/
def matchIntSuffix (cs : List Char) : Option (Bool × IntWidth) :=
  if cs = ("i8").data then some (true, .W8)
  else if cs = ("i16").data then some (true, .W16)
  else if cs = ("i32").data then some (true, .W32)
  else if cs = ("i64").data then some (true, .W64)
  else if cs = ("i128").data then some (true, .W128)
  else if cs = ("u8").data then some (false, .W8)
  else if cs = ("u16").data then some (false, .W16)
  else if cs = ("u32").data then some (false, .W32)
  else if cs = ("u64").data then some (false, .W64)
  else if cs = ("u128").data then some (false, .W128)
  else none

/-- Parses an unsigned numeric literal: digits, a type suffix, a mode. -/
def parseUnsignedNumeric (s : List Char) : Option (Literal × List Char) :=
  (parseNatChars s).bind fun p =>
    let suf := splitWhile Char.isAlphanum p.2
    if suf.1 = ("field").data then
      (parseModeOpt suf.2).map fun q => (.field p.1 q.1, q.2)
    else if suf.1 = ("group").data then
      (parseModeOpt suf.2).map fun q => (.group p.1 q.1, q.2)
    else if suf.1 = ("scalar").data then
      (parseModeOpt suf.2).map fun q => (.scalar p.1 q.1, q.2)
    else
      match matchIntSuffix suf.1 with
      | some (true, w) => (parseModeOpt suf.2).map fun q => (.intS w (p.1 : Int) q.1, q.2)
      | some (false, w) => (parseModeOpt suf.2).map fun q => (.intU w p.1 q.1, q.2)
      | none => none

/-- Parses a numeric literal, optionally negated (signed integers only). -/
def parseNumericLiteral (s : List Char) : Option (Literal × List Char) :=
  match s with
  | [] => none
  | c :: rest =>
    if c = '-' then
      (parseNatChars rest).bind fun p =>
        let suf := splitWhile Char.isAlphanum p.2
        match matchIntSuffix suf.1 with
        | some (true, w) =>
          (parseModeOpt suf.2).map fun q => (.intS w (-(p.1 : Int)) q.1, q.2)
        | _ => none
    else parseUnsignedNumeric (c :: rest)

/-- Parses a quoted string literal. -/
def parseStringLiteral (s : List Char) : Option (Literal × List Char) :=
  match s with
  | [] => none
  | c :: rest =>
    if c = '"' then
      let r := splitWhile (fun d => d != '"') rest
      match r.2 with
      | [] => none
      | d :: rest2 =>
        if d = '"' then
          (parseModeOpt rest2).map fun q => (.string (String.mk r.1) q.1, q.2)
        else none
    else none

/-- Parses a boolean literal. -/
def parseBoolLiteral (s : List Char) : Option (Literal × List Char) :=
  let r := splitWhile Char.isAlpha s
  if r.1 = ("true").data then (parseModeOpt r.2).map fun q => (.boolean true q.1, q.2)
  else if r.1 = ("false").data then (parseModeOpt r.2).map fun q => (.boolean false q.1, q.2)
  else none

/-- Parses a bech32-form address literal (`aleo1` plus 58 data characters). -/
def parseAddressLiteral (s : List Char) : Option (Literal × List Char) :=
  let r := splitWhile Char.isAlphanum s
  if r.1.length = 63 ∧ r.1.take 5 = ("aleo1").data then
    (parseModeOpt r.2).map fun q => (.address (String.mk r.1) q.1, q.2)
  else none

/-- Parses an operand: a literal immediate or a register reference,
dispatched on the first character. -/
def parseOperand (s : List Char) : Option (Operand × List Char) :=
  match s with
  | [] => none
  | c :: tl =>
    if c = '"' then (parseStringLiteral s).map fun p => (Operand.literal p.1, p.2)
    else if c = 'r' then (parseNatChars tl).map fun p => (Operand.register p.1, p.2)
    else if c = 't' ∨ c = 'f' then (parseBoolLiteral s).map fun p => (Operand.literal p.1, p.2)
    else if c = 'a' then (parseAddressLiteral s).map fun p => (Operand.literal p.1, p.2)
    else (parseNumericLiteral s).map fun p => (Operand.literal p.1, p.2)

/-- Parses a binary operation body `operand operand into r{index}`. -/
def BinaryOperation.parseChars (s : List Char) : Option (BinaryOperation × List Char) :=
  (parseOperand s).bind fun p1 =>
    (expectChars [' '] p1.2).bind fun r2 =>
      (parseOperand r2).bind fun p2 =>
        (expectChars (" into r").data p2.2).bind fun r4 =>
          (parseNatChars r4).map fun pd => (⟨p1.1, p2.1, pd.1⟩, pd.2)

/-- Parses a unary operation body `operand into r{index}`. -/
def UnaryOperation.parseChars (s : List Char) : Option (UnaryOperation × List Char) :=
  (parseOperand s).bind fun p1 =>
    (expectChars (" into r").data p1.2).bind fun r2 =>
      (parseNatChars r2).map fun pd => (⟨p1.1, pd.1⟩, pd.2)

/-- Parses an instruction: mnemonic dispatch, operation body, semicolon. -/
def Instruction.parseChars (s : List Char) : Option (Instruction × List Char) :=
  let op := splitWhile (fun c => c.isAlphanum || c == '.') s
  if op.1 = commitPed256Opcode.data then
    (expectChars [' '] op.2).bind fun r1 =>
      (BinaryOperation.parseChars r1).bind fun p =>
        (expectChars [';'] p.2).map fun r2 => (.commitPed256 p.1, r2)
  else if op.1 = hashPsd4Opcode.data then
    (expectChars [' '] op.2).bind fun r1 =>
      (UnaryOperation.parseChars r1).bind fun p =>
        (expectChars [';'] p.2).map fun r2 => (.hashPsd4 p.1, r2)
  else none

/-- Parses an instruction from a string. -/
def Instruction.parse (s : String) : Option (Instruction × List Char) :=
  Instruction.parseChars s.data

/-- The literal types rejected by the fixed-rate Poseidon hash instructions:
Boolean, Group and Address are not natively field-representable. -/
def psd4Rejected : Literal → Bool
  | .boolean _ _ => true
  | .group _ _ => true
  | .address _ _ => true
  | _ => false

/-- The modes of every literal leaf consumed from the resolved operands of
an instruction, in operand order. -/
def Instruction.consumedLeafModes (i : Instruction) (regs : Registers) : List Mode :=
  i.operands.flatMap fun o =>
    match o.resolve regs with
    | .ok v => v.leafModes
    | .error _ => []

/-! ## Canonical byte encoding

Modelled from the spec: a discriminant tag (a stable per-opcode/per-variant
integer) followed by the little-endian encoding of the operation fields,
operands then destination; used for persisted program bytecode. Characters
are encoded as four little-endian bytes each. -/

/-- Byte tag of a mode. -/
def modeFromByte (b : Nat) : Option Mode :=
  if b = 0 then some .Constant
  else if b = 1 then some .Public
  else if b = 2 then some .Private
  else none

/-- Stable index of an integer width. -/
def IntWidth.idx : IntWidth → Nat
  | .W8 => 0
  | .W16 => 1
  | .W32 => 2
  | .W64 => 3
  | .W128 => 4

/-- Width from its stable index. -/
def widthFromIdx (n : Nat) : Option IntWidth :=
  if n = 0 then some .W8
  else if n = 1 then some .W16
  else if n = 2 then some .W32
  else if n = 3 then some .W64
  else if n = 4 then some .W128
  else none

/-- Little-endian byte encoding of a literal: variant tag, mode byte,
fixed-width payload (strings carry a four-byte length prefix). -/
def Literal.toBytes : Literal → List Nat
  | .address s m => 0 :: m.toNat :: charsToBytes s.data
  | .boolean b m => 1 :: m.toNat :: [if b then 1 else 0]
  | .field x m => 2 :: m.toNat :: natToLEBytes 32 x
  | .group x m => 3 :: m.toNat :: natToLEBytes 32 x
  | .intS w x m =>
    (4 + w.idx) :: m.toNat :: natToLEBytes (w.bits / 8) (x % (2 ^ w.bits : Nat)).toNat
  | .intU w x m => (9 + w.idx) :: m.toNat :: natToLEBytes (w.bits / 8) x
  | .scalar x m => 14 :: m.toNat :: natToLEBytes 32 x
  | .string s m => 15 :: m.toNat :: (natToLEBytes 4 s.data.length ++ charsToBytes s.data)

/-- Reinterprets an unsigned payload of the given width as a signed value
(two's complement). -/
def signedOfNat (w : IntWidth) (n : Nat) : Int :=
  if 2 ^ (w.bits - 1) ≤ n then (n : Int) - (2 ^ w.bits : Nat) else (n : Int)

/-- Decodes a literal from a byte stream. -/
def Literal.fromBytes : List Nat → Option (Literal × List Nat)
  | t :: mb :: rest =>
    (modeFromByte mb).bind fun m =>
      if t = 0 then
        (readChars 63 rest).map fun p => (.address (String.mk p.1) m, p.2)
      else if t = 1 then
        match rest with
        | b :: r => some (.boolean (b == 1) m, r)
        | [] => none
      else if t = 2 then
        (readBytes 32 rest).map fun p => (.field (leBytesToNat p.1) m, p.2)
      else if t = 3 then
        (readBytes 32 rest).map fun p => (.group (leBytesToNat p.1) m, p.2)
      else if 4 ≤ t ∧ t ≤ 8 then
        (widthFromIdx (t - 4)).bind fun w =>
          (readBytes (w.bits / 8) rest).map fun p =>
            (.intS w (signedOfNat w (leBytesToNat p.1)) m, p.2)
      else if 9 ≤ t ∧ t ≤ 13 then
        (widthFromIdx (t - 9)).bind fun w =>
          (readBytes (w.bits / 8) rest).map fun p => (.intU w (leBytesToNat p.1) m, p.2)
      else if t = 14 then
        (readBytes 32 rest).map fun p => (.scalar (leBytesToNat p.1) m, p.2)
      else if t = 15 then
        (readBytes 4 rest).bind fun p =>
          (readChars (leBytesToNat p.1) p.2).map fun q => (.string (String.mk q.1) m, q.2)
      else none
  | _ => none

/-- Little-endian byte encoding of an operand: a variant byte, then either
the literal bytes or the four-byte register index. -/
def Operand.toBytes : Operand → List Nat
  | .literal l => 0 :: l.toBytes
  | .register i => 1 :: natToLEBytes 4 i

/-- Decodes an operand from a byte stream. -/
def Operand.fromBytes : List Nat → Option (Operand × List Nat)
  | [] => none
  | t :: rest =>
    if t = 0 then (Literal.fromBytes rest).map fun p => (Operand.literal p.1, p.2)
    else if t = 1 then
      (readBytes 4 rest).map fun p => (Operand.register (leBytesToNat p.1), p.2)
    else none

/-- Byte encoding of a binary operation body: operands then destination. -/
def BinaryOperation.toBytes (op : BinaryOperation) : List Nat :=
  op.first.toBytes ++ op.second.toBytes ++ natToLEBytes 4 op.destination

/-- Decodes a binary operation body. -/
def BinaryOperation.fromBytes (bs : List Nat) : Option (BinaryOperation × List Nat) :=
  (Operand.fromBytes bs).bind fun p1 =>
    (Operand.fromBytes p1.2).bind fun p2 =>
      (readBytes 4 p2.2).map fun pd => (⟨p1.1, p2.1, leBytesToNat pd.1⟩, pd.2)

/-- Byte encoding of a unary operation body. -/
def UnaryOperation.toBytes (op : UnaryOperation) : List Nat :=
  op.operand.toBytes ++ natToLEBytes 4 op.destination

/-- Decodes a unary operation body. -/
def UnaryOperation.fromBytes (bs : List Nat) : Option (UnaryOperation × List Nat) :=
  (Operand.fromBytes bs).bind fun p1 =>
    (readBytes 4 p1.2).map fun pd => (⟨p1.1, leBytesToNat pd.1⟩, pd.2)

/-- Byte encoding of an instruction: opcode discriminant tag, then the
operation body. -/
def Instruction.toBytes : Instruction → List Nat
  | .commitPed256 op => 0 :: op.toBytes
  | .hashPsd4 op => 1 :: op.toBytes

/-- Decodes an instruction from a byte stream. -/
def Instruction.fromBytes : List Nat → Option (Instruction × List Nat)
  | [] => none
  | t :: rest =>
    if t = 0 then (BinaryOperation.fromBytes rest).map fun p => (.commitPed256 p.1, p.2)
    else if t = 1 then (UnaryOperation.fromBytes rest).map fun p => (.hashPsd4 p.1, p.2)
    else none

/-! ## Validity

The well-formedness required of a constructed instruction: payloads within
their domains, addresses in bech32 shape, strings quote-free, register
indices within the four-byte index space. -/

/-- The base field modulus of the circuit environment (the BLS12-377 scalar
field, over which the embedded Edwards curve is defined): a 253-bit prime. -/
def baseFieldModulus : Nat :=
  8444461749428370424248824938781546531375899335154063827935233455917409239041

/-- The scalar field modulus of the embedded Edwards curve: a 251-bit prime. -/
def scalarFieldModulus : Nat :=
  2111115437357092606062206234695386632838870926408408195193685246394721360383

/-- Well-formedness of a literal. -/
def Literal.valid : Literal → Bool
  | .address s _ =>
    s.data.length = 63 && s.data.take 5 = ("aleo1").data && s.data.all Char.isAlphanum
  | .boolean _ _ => true
  | .field x _ => x < baseFieldModulus
  | .group x _ => x < baseFieldModulus
  | .intS w x _ => -(2 ^ (w.bits - 1) : Nat) ≤ x && x < (2 ^ (w.bits - 1) : Nat)
  | .intU w x _ => x < 2 ^ w.bits
  | .scalar x _ => x < scalarFieldModulus
  | .string s _ => s.data.all (fun c => c != '"') && s.data.length < 2 ^ 32

/-- Well-formedness of an operand. -/
def Operand.valid : Operand → Bool
  | .register i => i < 2 ^ 32
  | .literal l => l.valid

/-- Well-formedness of an instruction. -/
def Instruction.valid : Instruction → Bool
  | .commitPed256 op => op.first.valid && op.second.valid && op.destination < 2 ^ 32
  | .hashPsd4 op => op.operand.valid && op.destination < 2 ^ 32

/-! ## Console data model: Plaintext, Entry, Record, Value and path
resolution -/

namespace Console

/-- Modelled from the spec: a console plaintext is a literal or a named
composite of named fields in declaration order. -/
inductive Plaintext where
  | literal (l : SnarkVM.Literal)
  | composite (name : String) (fields : List (String × Plaintext))

/-- Mirrors the console `Entry` enum: a plaintext wrapped in one of three
storage visibilities, independent of the modes on its literals. -/
inductive Entry where
  | Constant (plaintext : Plaintext)
  | Public (plaintext : Plaintext)
  | Private (plaintext : Plaintext)

/-- The plaintext inside an entry, its storage visibility dropped. -/
def Entry.plaintext : Entry → Plaintext
  | .Constant pt => pt
  | .Public pt => pt
  | .Private pt => pt

/-- A record: an ordered mapping from member name to visibility-tagged
entry (owner/balance bookkeeping is out of scope). -/
abbrev Record := List (String × Entry)

/-- Looks up a record entry by member name. -/
def lookupEntry : List (String × Entry) → String → Option Entry
  | [], _ => none
  | (k, e) :: rest, n => if k = n then some e else lookupEntry rest n

mutual

/-- Modelled from the spec: `Plaintext::find` walks the path; each step must
match a composite field name; descending into a literal or missing a name
fails; an empty path returns the whole plaintext. -/
def Plaintext.find : Plaintext → List String → Except String Plaintext
  | p, [] => .ok p
  | .literal _, _ :: _ => .error ("Failed to locate member: cannot descend into a literal")
  | .composite _ fields, n :: rest => Plaintext.findIn fields n rest

/-- Scans composite fields for the named member and continues the path
inside it. -/
def Plaintext.findIn :
    List (String × Plaintext) → String → List String → Except String Plaintext
  | [], _, _ => .error ("Failed to locate member: no such field")
  | (k, v) :: fs, n, rest =>
    if k = n then Plaintext.find v rest else Plaintext.findIn fs n rest

end

/-- Modelled from the spec: `Record::find` matches the first path step
against an entry name and traverses the remaining path inside the entry,
preserving its storage visibility; an empty path cannot name an entry. -/
def Record.find (r : Record) (path : List String) : Except String Entry :=
  match path with
  | [] => .error ("Failed to locate entry: the path is empty")
  | n :: rest =>
    match lookupEntry r n with
    | none => .error ("Failed to locate entry: no such entry")
    | some (.Constant pt) => (pt.find rest).map Entry.Constant
    | some (.Public pt) => (pt.find rest).map Entry.Public
    | some (.Private pt) => (pt.find rest).map Entry.Private

/-- Mirrors the console `Value` enum: a plaintext or a record. -/
inductive Value where
  | plaintext (pt : Plaintext)
  | record (r : Record)

/-- Mirrors `Value::find`: on a plaintext, plain traversal; on a record, the
found entry's plaintext is extracted and the entry's storage visibility is
discarded (all three arms return the same plaintext wrapping). -/
def Value.find (v : Value) (path : List String) : Except String Value :=
  match v with
  | .plaintext pt => (Plaintext.find pt path).map Value.plaintext
  | .record r =>
    match Record.find r path with
    | .ok (Entry.Constant pt) => .ok (.plaintext pt)
    | .ok (Entry.Public pt) => .ok (.plaintext pt)
    | .ok (Entry.Private pt) => .ok (.plaintext pt)
    | .error e => .error e

/-! ## Program identity -/

/-- Modelled from the spec: a character that may continue an identifier. -/
def isIdentChar (c : Char) : Bool := c.isAlphanum || c == '_'

/-- Modelled from the spec: identifier validity — non-empty, leading letter,
then letters, digits or underscores, short enough for a four-byte length. -/
def validIdent (s : String) : Bool :=
  match s.data with
  | [] => false
  | c :: rest => c.isAlpha && rest.all isIdentChar && s.data.length < 2 ^ 32

/-- Modelled from the spec: `Identifier::parse` — a leading letter followed
by the longest run of identifier characters. -/
def parseIdentifier : List Char → Option (String × List Char)
  | [] => none
  | c :: rest =>
    if c.isAlpha then
      let r := splitWhile isIdentChar rest
      some (String.mk (c :: r.1), r.2)
    else none

/-- Mirrors the console `ProgramID`: a program name and a network name. -/
structure ProgramID where
  name : String
  network : String
deriving DecidableEq, Repr

/-- Mirrors `ProgramID::parse`: name, a literal dot, then the network-level
domain, returning the unconsumed remainder. -/
def ProgramID.parseChars (s : List Char) : Option (ProgramID × List Char) :=
  (parseIdentifier s).bind fun pn =>
    (expectChars ['.'] pn.2).bind fun r2 =>
      (parseIdentifier r2).map fun pw => (⟨pn.1, pw.1⟩, pw.2)

/-- Mirrors `FromStr for ProgramID`: parse, then require that the remainder
is empty. -/
def ProgramID.fromStr (s : String) : Except String ProgramID :=
  match ProgramID.parseChars s.data with
  | some (id, []) => .ok id
  | some (_, _ :: _) =>
    .error ("Failed to parse string. Found invalid character in remainder")
  | none => .error ("Failed to parse string.")

/-- Mirrors `Display for ProgramID`: the text `{name}.{network}` with the
braces denoting interpolation of the two members. -/
def ProgramID.display (id : ProgramID) : String :=
  id.name ++ "." ++ id.network

/-- Modelled from the spec: the little-endian byte encoding of a program ID
(four-byte length prefix then characters, for each member in order). -/
def ProgramID.toBytes (id : ProgramID) : List Nat :=
  natToLEBytes 4 id.name.data.length ++ charsToBytes id.name.data
    ++ natToLEBytes 4 id.network.data.length ++ charsToBytes id.network.data

/-- Decodes a program ID from a byte stream. -/
def ProgramID.fromBytes (bs : List Nat) : Option (ProgramID × List Nat) :=
  (readBytes 4 bs).bind fun p1 =>
    (readChars (leBytesToNat p1.1) p1.2).bind fun q1 =>
      (readBytes 4 q1.2).bind fun p2 =>
        (readChars (leBytesToNat p2.1) p2.2).map fun q2 =>
          (⟨String.mk q1.1, String.mk q2.1⟩, q2.2)

/-- A program ID is valid when both its members are valid identifiers. -/
def ProgramID.valid (id : ProgramID) : Bool :=
  validIdent id.name && validIdent id.network

end Console

/-! ## Circuit integers: the from_field cast -/

namespace Circuit

/-- A base field element of the circuit environment, reduced below the
modulus by construction of the field arithmetic. -/
structure FieldEl where
  val : Nat
deriving DecidableEq, Repr

/-- Mirrors `to_lower_bits_le`: the `n` low bits of the field element's
little-endian representation, without a carry bit. -/
def FieldEl.toLowerBitsLE (f : FieldEl) (n : Nat) : List Bool :=
  natToLEBits n f.val

/-- A circuit integer of bit width `w`: its little-endian bit cells. -/
structure CInteger (w : Nat) where
  bitsLE : List Bool
deriving DecidableEq, Repr

/-- Mirrors `Integer::from_field`: extract the integer's bits from the field
element, without a carry bit, keeping only the `w` low bits. -/
def CInteger.fromField (w : Nat) (f : FieldEl) : CInteger w :=
  ⟨f.toLowerBitsLE w⟩

/-- Mirrors `Integer::to_field` (`Field::from_bits_le` on the integer's
bits): the field element whose value is the bit pattern, reduced by the
field arithmetic. -/
def CInteger.toField (w : Nat) (i : CInteger w) : FieldEl :=
  ⟨leBitsToNat i.bitsLE % baseFieldModulus⟩

/-- The size in bits of the base field modulus. -/
def baseFieldSizeInBits : Nat := 253

end Circuit

/-! # Theorems

First the supporting lemmas about the token-level functions, then one
theorem per specification claim (with witnesses where a claim theorem
carries hypotheses). -/

/-! ## Token and stream lemmas -/

theorem splitWhile_append {p : Char → Bool} {xs rest : List Char}
    (hall : ∀ c ∈ xs, p c = true) (hstop : headStops p rest = true) :
    splitWhile p (xs ++ rest) = (xs, rest) := by
  induction xs with
  | nil =>
    cases rest with
    | nil => rfl
    | cons c tl =>
      simp only [headStops, Bool.not_eq_true'] at hstop
      simp [splitWhile, hstop]
  | cons c tl ih =>
    have hc : p c = true := hall c (by simp)
    have ih' := ih fun d hd => hall d (by simp [hd])
    simp [splitWhile, hc, ih']

theorem headStops_of_alphanum {l : List Char} (h : headStops Char.isAlphanum l = true) :
    headStops Char.isAlpha l = true ∧ headStops Char.isDigit l = true := by
  cases l with
  | nil => exact ⟨rfl, rfl⟩
  | cons c tl =>
    simp only [headStops, Bool.not_eq_true'] at h ⊢
    unfold Char.isAlphanum at h
    constructor
    · cases ha : c.isAlpha <;> simp [ha] at h ⊢
    · cases hd : c.isDigit <;> simp [hd] at h ⊢

theorem expectChars_append (pre rest : List Char) :
    expectChars pre (pre ++ rest) = some rest := by
  unfold expectChars
  rw [List.take_left, List.drop_left]
  simp

theorem digitChar_isDigit {n : Nat} (h : n < 10) : (digitChar n).isDigit = true := by
  interval_cases n <;> decide

theorem natDigitsAux_stable :
    ∀ fuel fuel' n, n < fuel → n < fuel' → natDigitsAux fuel n = natDigitsAux fuel' n := by
  intro fuel
  induction fuel with
  | zero => intro fuel' n h _; omega
  | succ f ih =>
    intro fuel' n h h'
    cases fuel' with
    | zero => omega
    | succ f' =>
      simp only [natDigitsAux]
      by_cases h10 : n < 10
      · simp [h10]
      · have hd : n / 10 < n := Nat.div_lt_self (by omega) (by omega)
        simp only [h10, if_false]
        rw [ih f' (n / 10) (by omega) (by omega)]

theorem natDigits_eq (n : Nat) :
    natDigits n
      = if n < 10 then [digitChar n] else natDigits (n / 10) ++ [digitChar (n % 10)] := by
  show natDigitsAux (n + 1) n = _
  simp only [natDigitsAux]
  by_cases h : n < 10
  · simp [h]
  · have hd : n / 10 < n := Nat.div_lt_self (by omega) (by omega)
    simp only [h, if_false]
    show natDigitsAux n (n / 10) ++ _ = natDigitsAux (n / 10 + 1) (n / 10) ++ _
    rw [natDigitsAux_stable n (n / 10 + 1) (n / 10) (by omega) (by omega)]

theorem digitChar_toNat {n : Nat} (h : n < 10) : (digitChar n).toNat = 48 + n := by
  interval_cases n <;> decide

theorem natDigits_isDigit (n : Nat) : ∀ c ∈ natDigits n, c.isDigit = true := by
  induction n using Nat.strong_induction_on with
  | _ n ih =>
    intro c hc
    rw [natDigits_eq] at hc
    by_cases h : n < 10
    · simp [h] at hc
      exact hc ▸ digitChar_isDigit h
    · simp [h] at hc
      rcases hc with hc | hc
      · exact ih (n / 10) (Nat.div_lt_self (by omega) (by omega)) c hc
      · exact hc ▸ digitChar_isDigit (Nat.mod_lt _ (by omega))

theorem natDigits_ne_nil (n : Nat) : natDigits n ≠ [] := by
  rw [natDigits_eq]
  by_cases h : n < 10 <;> simp [h]

theorem digitsToNat_natDigits_general (n : Nat) (a : Nat) :
    (natDigits n).foldl (fun a c => 10 * a + (c.toNat - 48)) a
      = a * 10 ^ (natDigits n).length + n := by
  induction n using Nat.strong_induction_on generalizing a with
  | _ n ih =>
    rw [natDigits_eq]
    by_cases h : n < 10
    · simp [h, List.foldl, digitChar_toNat h]
      omega
    · have hd : n / 10 < n := Nat.div_lt_self (by omega) (by omega)
      simp only [h, if_false, List.foldl_append, List.length_append, List.foldl,
        List.length_cons, List.length_nil]
      rw [ih (n / 10) hd a]
      rw [digitChar_toNat (Nat.mod_lt _ (by omega))]
      rw [pow_succ]
      ring_nf
      omega

theorem digitsToNat_natDigits (n : Nat) : digitsToNat (natDigits n) = n := by
  unfold digitsToNat
  rw [digitsToNat_natDigits_general]
  simp

theorem parseNatChars_append {n : Nat} {rest : List Char}
    (hstop : headStops Char.isDigit rest = true) :
    parseNatChars (natDigits n ++ rest) = some (n, rest) := by
  unfold parseNatChars
  rw [splitWhile_append (natDigits_isDigit n) hstop]
  simp [natDigits_ne_nil, digitsToNat_natDigits]

/-! ## Bit and byte lemmas -/

theorem length_natToLEBits (w n : Nat) : (natToLEBits w n).length = w := by
  induction w generalizing n with
  | zero => rfl
  | succ w ih => simp [natToLEBits, ih]

theorem leBitsToNat_lt {bs : List Bool} : leBitsToNat bs < 2 ^ bs.length := by
  induction bs with
  | nil => simp [leBitsToNat]
  | cons b tl ih =>
    simp only [leBitsToNat, List.length_cons, pow_succ]
    cases b <;> simp <;> omega

theorem natToLEBits_leBitsToNat {bs : List Bool} {w : Nat} (h : bs.length = w) :
    natToLEBits w (leBitsToNat bs) = bs := by
  induction bs generalizing w with
  | nil => subst h; rfl
  | cons b tl ih =>
    subst h
    simp only [leBitsToNat, List.length_cons, natToLEBits]
    congr 1
    · cases b <;> simp [Nat.add_mul_mod_self_left]
    · have h2 : ((if b then 1 else 0) + 2 * leBitsToNat tl) / 2 = leBitsToNat tl := by
        cases b
        · simp
        · simp
          omega
      rw [h2, ih rfl]

theorem leBitsToNat_natToLEBits {w n : Nat} (h : n < 2 ^ w) :
    leBitsToNat (natToLEBits w n) = n := by
  induction w generalizing n with
  | zero => simp at h; simp [natToLEBits, leBitsToNat, h]
  | succ w ih =>
    simp only [natToLEBits, leBitsToNat]
    have hd : n / 2 < 2 ^ w := by
      rw [pow_succ] at h
      omega
    rw [ih hd]
    have hm : n % 2 = 0 ∨ n % 2 = 1 := by omega
    rcases hm with hm | hm <;> simp [hm] <;> omega

theorem natToLEBits_mod (w n : Nat) : natToLEBits w (n % 2 ^ w) = natToLEBits w n := by
  induction w generalizing n with
  | zero => rfl
  | succ w ih =>
    simp only [natToLEBits]
    have h2 : (2 : Nat) ^ (w + 1) = 2 * 2 ^ w := by rw [pow_succ]; ring
    congr 1
    · have : n % 2 ^ (w + 1) % 2 = n % 2 := by
        rw [h2]
        exact Nat.mod_mod_of_dvd n ⟨2 ^ w, by ring⟩
      rw [this]
    · have : n % 2 ^ (w + 1) / 2 = n / 2 % 2 ^ w := by
        rw [h2]
        exact Nat.mod_mul_right_div_self n 2 (2 ^ w)
      rw [this, ih]

theorem length_natToLEBytes (w n : Nat) : (natToLEBytes w n).length = w := by
  induction w generalizing n with
  | zero => rfl
  | succ w ih => simp [natToLEBytes, ih]

theorem leBytesToNat_natToLEBytes {w n : Nat} (h : n < 256 ^ w) :
    leBytesToNat (natToLEBytes w n) = n := by
  induction w generalizing n with
  | zero => simp at h; simp [natToLEBytes, leBytesToNat, h]
  | succ w ih =>
    simp only [natToLEBytes, leBytesToNat]
    have hd : n / 256 < 256 ^ w := by
      rw [pow_succ] at h
      omega
    rw [ih hd]
    omega

theorem readBytes_append {xs rest : List Nat} {n : Nat} (h : xs.length = n) :
    readBytes n (xs ++ rest) = some (xs, rest) := by
  induction xs generalizing n with
  | nil => subst h; rfl
  | cons b tl ih =>
    subst h
    simp [readBytes, ih rfl]

theorem char_toNat_lt (c : Char) : c.toNat < 256 ^ 4 := by
  have := c.val.toNat_lt
  simp only [Char.toNat]
  omega

theorem readChars_append {cs : List Char} {rest : List Nat} :
    readChars cs.length (charsToBytes cs ++ rest) = some (cs, rest) := by
  induction cs with
  | nil => rfl
  | cons c tl ih =>
    simp only [charsToBytes, List.flatMap_cons, List.length_cons, readChars,
      List.append_assoc]
    rw [readBytes_append (length_natToLEBytes 4 c.toNat)]
    simp only [Option.some_bind]
    have hc : charsToBytes tl = tl.flatMap fun c => natToLEBytes 4 c.toNat := rfl
    rw [← hc, ih]
    simp only [Option.map_some']
    rw [leBytesToNat_natToLEBytes (char_toNat_lt c), Char.ofNat_toNat]

/-! ## Textual round-trip lemmas -/

theorem parseModeOpt_append {m : Mode} {rest : List Char}
    (hstop : headStops Char.isAlpha rest = true) :
    parseModeOpt (modeText m ++ rest) = some (m, rest) := by
  cases m
  · show parseModeOpt ('.' :: (("constant").data ++ rest)) = _
    simp only [parseModeOpt]
    rw [@splitWhile_append Char.isAlpha ("constant").data rest (by decide) hstop]
    simp
  · show parseModeOpt ('.' :: (("public").data ++ rest)) = _
    simp only [parseModeOpt]
    rw [@splitWhile_append Char.isAlpha ("public").data rest (by decide) hstop]
    simp
  · show parseModeOpt ('.' :: (("private").data ++ rest)) = _
    simp only [parseModeOpt]
    rw [@splitWhile_append Char.isAlpha ("private").data rest (by decide) hstop]
    simp

theorem headStops_modeText (m : Mode) (rest : List Char) :
    headStops Char.isAlphanum (modeText m ++ rest) = true := by
  cases m <;> rfl

theorem headStops_of_alphanum_alpha {l : List Char}
    (h : headStops Char.isAlphanum l = true) : headStops Char.isAlpha l = true :=
  (headStops_of_alphanum h).1

theorem headStops_of_alphanum_digit {l : List Char}
    (h : headStops Char.isAlphanum l = true) : headStops Char.isDigit l = true :=
  (headStops_of_alphanum h).2

theorem isDigit_guards {c : Char} (h : c.isDigit = true) :
    c ≠ '"' ∧ c ≠ 'r' ∧ c ≠ 't' ∧ c ≠ 'f' ∧ c ≠ 'a' ∧ c ≠ '-' := by
  refine ⟨?_, ?_, ?_, ?_, ?_, ?_⟩ <;> (rintro rfl; exact absurd h (by decide))

theorem parseModeOpt_modeText {m : Mode} {rest : List Char}
    (hstop : headStops Char.isAlphanum rest = true) :
    parseModeOpt (modeText m ++ rest) = some (m, rest) :=
  parseModeOpt_append (headStops_of_alphanum_alpha hstop)

theorem splitWhile_alphanum_suffix (suffix : List Char) (m : Mode) (rest : List Char)
    (hall : ∀ c ∈ suffix, Char.isAlphanum c = true) :
    splitWhile Char.isAlphanum (suffix ++ (modeText m ++ rest))
      = (suffix, modeText m ++ rest) :=
  splitWhile_append hall (headStops_modeText m rest)

theorem headStops_isDigit_field (X : List Char) :
    headStops Char.isDigit (("field").data ++ X) = true := by rfl

theorem headStops_isDigit_group (X : List Char) :
    headStops Char.isDigit (("group").data ++ X) = true := by rfl

theorem headStops_isDigit_scalar (X : List Char) :
    headStops Char.isDigit (("scalar").data ++ X) = true := by rfl

theorem headStops_isDigit_intSuffix (signed : Bool) (w : IntWidth) (X : List Char) :
    headStops Char.isDigit (intSuffix signed w ++ X) = true := by
  cases signed <;> rfl

theorem intSuffix_alphanum (signed : Bool) (w : IntWidth) :
    ∀ c ∈ intSuffix signed w, Char.isAlphanum c = true := by
  cases signed <;> cases w <;> decide

theorem matchIntSuffix_intSuffix (signed : Bool) (w : IntWidth) :
    matchIntSuffix (intSuffix signed w) = some (signed, w) := by
  cases signed <;> cases w <;> decide

theorem intSuffix_ne_field (signed : Bool) (w : IntWidth) :
    intSuffix signed w ≠ ("field").data := by
  cases signed <;> cases w <;> decide

theorem intSuffix_ne_group (signed : Bool) (w : IntWidth) :
    intSuffix signed w ≠ ("group").data := by
  cases signed <;> cases w <;> decide

theorem intSuffix_ne_scalar (signed : Bool) (w : IntWidth) :
    intSuffix signed w ≠ ("scalar").data := by
  cases signed <;> cases w <;> decide

theorem parseUnsignedNumeric_field (x : Nat) (m : Mode) (rest : List Char)
    (hstop : headStops Char.isAlphanum rest = true) :
    parseUnsignedNumeric (natDigits x ++ (("field").data ++ (modeText m ++ rest)))
      = some (.field x m, rest) := by
  unfold parseUnsignedNumeric
  rw [parseNatChars_append (headStops_isDigit_field _)]
  simp only [Option.some_bind]
  rw [splitWhile_alphanum_suffix _ _ _ (by decide)]
  simp only [if_pos rfl]
  rw [parseModeOpt_modeText hstop]
  rfl

theorem parseUnsignedNumeric_group (x : Nat) (m : Mode) (rest : List Char)
    (hstop : headStops Char.isAlphanum rest = true) :
    parseUnsignedNumeric (natDigits x ++ (("group").data ++ (modeText m ++ rest)))
      = some (.group x m, rest) := by
  unfold parseUnsignedNumeric
  rw [parseNatChars_append (headStops_isDigit_group _)]
  simp only [Option.some_bind]
  rw [splitWhile_alphanum_suffix _ _ _ (by decide)]
  rw [if_neg (show ¬(("group").data = ("field").data) by decide), if_pos rfl]
  rw [parseModeOpt_modeText hstop]
  rfl

theorem parseUnsignedNumeric_scalar (x : Nat) (m : Mode) (rest : List Char)
    (hstop : headStops Char.isAlphanum rest = true) :
    parseUnsignedNumeric (natDigits x ++ (("scalar").data ++ (modeText m ++ rest)))
      = some (.scalar x m, rest) := by
  unfold parseUnsignedNumeric
  rw [parseNatChars_append (headStops_isDigit_scalar _)]
  simp only [Option.some_bind]
  rw [splitWhile_alphanum_suffix _ _ _ (by decide)]
  rw [if_neg (show ¬(("scalar").data = ("field").data) by decide),
    if_neg (show ¬(("scalar").data = ("group").data) by decide), if_pos rfl]
  rw [parseModeOpt_modeText hstop]
  rfl

theorem parseUnsignedNumeric_int (signed : Bool) (w : IntWidth) (x : Nat) (m : Mode)
    (rest : List Char) (hstop : headStops Char.isAlphanum rest = true) :
    parseUnsignedNumeric (natDigits x ++ (intSuffix signed w ++ (modeText m ++ rest)))
      = some (if signed then .intS w (x : Int) m else .intU w x m, rest) := by
  unfold parseUnsignedNumeric
  rw [parseNatChars_append (headStops_isDigit_intSuffix signed w _)]
  simp only [Option.some_bind]
  rw [splitWhile_alphanum_suffix _ _ _ (intSuffix_alphanum signed w)]
  rw [if_neg (intSuffix_ne_field signed w), if_neg (intSuffix_ne_group signed w),
    if_neg (intSuffix_ne_scalar signed w)]
  rw [matchIntSuffix_intSuffix]
  cases signed
  · rw [parseModeOpt_modeText hstop]
    rfl
  · rw [parseModeOpt_modeText hstop]
    rfl

theorem string_mk_data (s : String) : String.mk s.data = s := rfl

theorem parseAddressLiteral_display {s : String} {m : Mode} {rest : List Char}
    (hlen : s.data.length = 63) (htake : s.data.take 5 = ("aleo1").data)
    (hall : ∀ c ∈ s.data, Char.isAlphanum c = true)
    (hstop : headStops Char.isAlphanum rest = true) :
    parseAddressLiteral (s.data ++ (modeText m ++ rest)) = some (.address s m, rest) := by
  unfold parseAddressLiteral
  rw [splitWhile_append hall (headStops_modeText m rest)]
  rw [if_pos ⟨hlen, htake⟩]
  rw [parseModeOpt_modeText hstop]
  rfl

theorem parseStringLiteral_display {s : String} {m : Mode} {rest : List Char}
    (hq : ∀ c ∈ s.data, (c != '"') = true)
    (hstop : headStops Char.isAlphanum rest = true) :
    parseStringLiteral ('"' :: (s.data ++ ('"' :: (modeText m ++ rest))))
      = some (.string s m, rest) := by
  simp only [parseStringLiteral, if_true]
  rw [splitWhile_append hq (by rfl)]
  simp only [if_pos rfl, if_true]
  rw [parseModeOpt_modeText hstop]
  rfl

theorem parseBoolLiteral_false {m : Mode} {rest : List Char}
    (hstop : headStops Char.isAlphanum rest = true) :
    parseBoolLiteral ('f' :: (("alse").data ++ (modeText m ++ rest)))
      = some (.boolean false m, rest) := by
  show parseBoolLiteral (("false").data ++ (modeText m ++ rest)) = _
  unfold parseBoolLiteral
  rw [@splitWhile_append Char.isAlpha ("false").data _ (by decide)
    (headStops_of_alphanum_alpha (headStops_modeText m rest))]
  rw [if_neg (show ¬(("false").data = ("true").data) by decide), if_pos rfl]
  rw [parseModeOpt_modeText hstop]
  rfl

theorem parseBoolLiteral_true {m : Mode} {rest : List Char}
    (hstop : headStops Char.isAlphanum rest = true) :
    parseBoolLiteral ('t' :: (("rue").data ++ (modeText m ++ rest)))
      = some (.boolean true m, rest) := by
  show parseBoolLiteral (("true").data ++ (modeText m ++ rest)) = _
  unfold parseBoolLiteral
  rw [@splitWhile_append Char.isAlpha ("true").data _ (by decide)
    (headStops_of_alphanum_alpha (headStops_modeText m rest))]
  rw [if_pos rfl]
  rw [parseModeOpt_modeText hstop]
  rfl

theorem parseOperand_of_head_quote (tl : List Char) :
    parseOperand ('"' :: tl)
      = (parseStringLiteral ('"' :: tl)).map fun p => (Operand.literal p.1, p.2) := by
  simp [parseOperand]

theorem parseOperand_of_head_r (tl : List Char) :
    parseOperand ('r' :: tl)
      = (parseNatChars tl).map fun p => (Operand.register p.1, p.2) := by
  simp [parseOperand]

theorem parseOperand_of_head_t (tl : List Char) :
    parseOperand ('t' :: tl)
      = (parseBoolLiteral ('t' :: tl)).map fun p => (Operand.literal p.1, p.2) := by
  simp [parseOperand]

theorem parseOperand_of_head_f (tl : List Char) :
    parseOperand ('f' :: tl)
      = (parseBoolLiteral ('f' :: tl)).map fun p => (Operand.literal p.1, p.2) := by
  simp [parseOperand]

theorem parseOperand_of_head_a {s : List Char} (h : ∃ tl, s = 'a' :: tl) :
    parseOperand s = (parseAddressLiteral s).map fun p => (Operand.literal p.1, p.2) := by
  obtain ⟨tl, rfl⟩ := h
  simp [parseOperand]

theorem parseOperand_of_head_digit {s : List Char}
    (h : ∃ c tl, s = c :: tl ∧ c.isDigit = true) :
    parseOperand s = (parseNumericLiteral s).map fun p => (Operand.literal p.1, p.2) := by
  obtain ⟨c, tl, rfl, hd⟩ := h
  obtain ⟨h1, h2, h3, h4, h5, _⟩ := isDigit_guards hd
  simp only [parseOperand]
  rw [if_neg h1, if_neg h2, if_neg (by simp [h3, h4]), if_neg h5]

theorem parseNumericLiteral_of_head_digit {s : List Char}
    (h : ∃ c tl, s = c :: tl ∧ c.isDigit = true) :
    parseNumericLiteral s = parseUnsignedNumeric s := by
  obtain ⟨c, tl, rfl, hd⟩ := h
  simp only [parseNumericLiteral]
  rw [if_neg (isDigit_guards hd).2.2.2.2.2]

theorem natDigits_cons_digit (n : Nat) :
    ∃ c tl, natDigits n = c :: tl ∧ c.isDigit = true := by
  cases hc : natDigits n with
  | nil => exact absurd hc (natDigits_ne_nil n)
  | cons c tl =>
    exact ⟨c, tl, rfl, natDigits_isDigit n c (by rw [hc]; simp)⟩

theorem natDigits_append_cons_digit (n : Nat) (X : List Char) :
    ∃ c tl, natDigits n ++ X = c :: tl ∧ c.isDigit = true := by
  obtain ⟨c, tl, hc, hd⟩ := natDigits_cons_digit n
  exact ⟨c, tl ++ X, by rw [hc]; rfl, hd⟩

theorem parseOperand_display {o : Operand} {rest : List Char} (hv : o.valid = true)
    (hstop : headStops Char.isAlphanum rest = true) :
    parseOperand (o.displayChars ++ rest) = some (o, rest) := by
  cases o with
  | register i =>
    show parseOperand ('r' :: (natDigits i ++ rest)) = _
    rw [parseOperand_of_head_r]
    rw [parseNatChars_append (headStops_of_alphanum_digit hstop)]
    rfl
  | literal l =>
    cases l with
    | address s m =>
      simp only [Operand.valid, Literal.valid, Bool.and_eq_true, decide_eq_true_eq,
        List.all_eq_true] at hv
      obtain ⟨⟨hlen, htake⟩, hall⟩ := hv
      have hdata : s.data = ("aleo1").data ++ s.data.drop 5 := by
        conv_lhs => rw [← List.take_append_drop 5 s.data]
        rw [htake]
      have hshape : (Operand.literal (Literal.address s m)).displayChars ++ rest
          = s.data ++ (modeText m ++ rest) := by
        simp [Operand.displayChars, Literal.displayChars]
      rw [hshape]
      rw [parseOperand_of_head_a ⟨("leo1").data ++ s.data.drop 5 ++ (modeText m ++ rest),
        by rw [hdata]; simp⟩]
      rw [parseAddressLiteral_display hlen htake hall hstop]
      rfl
    | boolean b m =>
      cases b
      · show parseOperand ('f' :: (("alse").data ++ (modeText m ++ rest))) = _
        rw [parseOperand_of_head_f]
        rw [parseBoolLiteral_false hstop]
        rfl
      · show parseOperand ('t' :: (("rue").data ++ (modeText m ++ rest))) = _
        rw [parseOperand_of_head_t]
        rw [parseBoolLiteral_true hstop]
        rfl
    | field x m =>
      have hshape : (Operand.literal (Literal.field x m)).displayChars ++ rest
          = natDigits x ++ (("field").data ++ (modeText m ++ rest)) := by
        simp [Operand.displayChars, Literal.displayChars]
      rw [hshape]
      rw [parseOperand_of_head_digit (natDigits_append_cons_digit x _)]
      rw [parseNumericLiteral_of_head_digit (natDigits_append_cons_digit x _)]
      rw [parseUnsignedNumeric_field x m rest hstop]
      rfl
    | group x m =>
      have hshape : (Operand.literal (Literal.group x m)).displayChars ++ rest
          = natDigits x ++ (("group").data ++ (modeText m ++ rest)) := by
        simp [Operand.displayChars, Literal.displayChars]
      rw [hshape]
      rw [parseOperand_of_head_digit (natDigits_append_cons_digit x _)]
      rw [parseNumericLiteral_of_head_digit (natDigits_append_cons_digit x _)]
      rw [parseUnsignedNumeric_group x m rest hstop]
      rfl
    | scalar x m =>
      have hshape : (Operand.literal (Literal.scalar x m)).displayChars ++ rest
          = natDigits x ++ (("scalar").data ++ (modeText m ++ rest)) := by
        simp [Operand.displayChars, Literal.displayChars]
      rw [hshape]
      rw [parseOperand_of_head_digit (natDigits_append_cons_digit x _)]
      rw [parseNumericLiteral_of_head_digit (natDigits_append_cons_digit x _)]
      rw [parseUnsignedNumeric_scalar x m rest hstop]
      rfl
    | intU w x m =>
      have hshape : (Operand.literal (Literal.intU w x m)).displayChars ++ rest
          = natDigits x ++ (intSuffix false w ++ (modeText m ++ rest)) := by
        simp [Operand.displayChars, Literal.displayChars]
      rw [hshape]
      rw [parseOperand_of_head_digit (natDigits_append_cons_digit x _)]
      rw [parseNumericLiteral_of_head_digit (natDigits_append_cons_digit x _)]
      rw [parseUnsignedNumeric_int false w x m rest hstop]
      rfl
    | intS w x m =>
      by_cases hx : x < 0
      · have hshape : (Operand.literal (Literal.intS w x m)).displayChars ++ rest
            = '-' :: (natDigits (-x).toNat ++ (intSuffix true w ++ (modeText m ++ rest))) := by
          simp [Operand.displayChars, Literal.displayChars, intText, hx]
        rw [hshape]
        simp only [parseOperand]
        rw [if_neg (by decide), if_neg (by decide), if_neg (by simp), if_neg (by decide)]
        simp only [parseNumericLiteral, if_pos rfl, if_true]
        rw [parseNatChars_append (headStops_isDigit_intSuffix true w _)]
        simp only [Option.some_bind]
        rw [splitWhile_alphanum_suffix _ _ _ (intSuffix_alphanum true w)]
        rw [matchIntSuffix_intSuffix]
        rw [parseModeOpt_modeText hstop]
        simp only [Option.map_some']
        have hxv : (-(((-x).toNat : Nat) : Int)) = x := by omega
        rw [hxv]
      · have hshape : (Operand.literal (Literal.intS w x m)).displayChars ++ rest
            = natDigits x.toNat ++ (intSuffix true w ++ (modeText m ++ rest)) := by
          simp [Operand.displayChars, Literal.displayChars, intText, hx]
        rw [hshape]
        rw [parseOperand_of_head_digit (natDigits_append_cons_digit x.toNat _)]
        rw [parseNumericLiteral_of_head_digit (natDigits_append_cons_digit x.toNat _)]
        rw [parseUnsignedNumeric_int true w x.toNat m rest hstop]
        have hxv : ((x.toNat : Nat) : Int) = x := by omega
        simp only [if_pos rfl, if_true, hxv]
        rfl
    | string s m =>
      simp only [Operand.valid, Literal.valid, Bool.and_eq_true, decide_eq_true_eq,
        List.all_eq_true] at hv
      have hshape : (Operand.literal (Literal.string s m)).displayChars ++ rest
          = '"' :: (s.data ++ ('"' :: (modeText m ++ rest))) := by
        simp [Operand.displayChars, Literal.displayChars]
      rw [hshape]
      rw [parseOperand_of_head_quote]
      rw [parseStringLiteral_display hv.1 hstop]
      rfl

theorem BinaryOperation_parse_display {op : BinaryOperation} {rest : List Char}
    (h1 : op.first.valid = true) (h2 : op.second.valid = true)
    (hstop : headStops Char.isDigit rest = true) :
    BinaryOperation.parseChars (op.displayChars ++ rest) = some (op, rest) := by
  have hshape : op.displayChars ++ rest
      = op.first.displayChars ++ (' ' :: (op.second.displayChars
          ++ ((" into r").data ++ (natDigits op.destination ++ rest)))) := by
    simp [BinaryOperation.displayChars]
  rw [hshape]
  unfold BinaryOperation.parseChars
  rw [parseOperand_display h1 (by rfl)]
  simp only [Option.some_bind]
  rw [show (' ' :: (op.second.displayChars
      ++ ((" into r").data ++ (natDigits op.destination ++ rest))))
    = [' '] ++ (op.second.displayChars
      ++ ((" into r").data ++ (natDigits op.destination ++ rest))) from rfl]
  rw [expectChars_append]
  simp only [Option.some_bind]
  rw [parseOperand_display h2 (by rfl)]
  simp only [Option.some_bind]
  rw [expectChars_append]
  simp only [Option.some_bind]
  rw [parseNatChars_append hstop]
  rfl

theorem UnaryOperation_parse_display {op : UnaryOperation} {rest : List Char}
    (h1 : op.operand.valid = true) (hstop : headStops Char.isDigit rest = true) :
    UnaryOperation.parseChars (op.displayChars ++ rest) = some (op, rest) := by
  have hshape : op.displayChars ++ rest
      = op.operand.displayChars ++ ((" into r").data ++ (natDigits op.destination ++ rest)) := by
    simp [UnaryOperation.displayChars]
  rw [hshape]
  unfold UnaryOperation.parseChars
  rw [parseOperand_display h1 (by rfl)]
  simp only [Option.some_bind]
  rw [expectChars_append]
  simp only [Option.some_bind]
  rw [parseNatChars_append hstop]
  rfl

theorem Instruction_parse_display {i : Instruction} {rest : List Char}
    (hv : i.valid = true) :
    Instruction.parseChars (i.displayChars ++ rest) = some (i, rest) := by
  cases i with
  | commitPed256 op =>
    simp only [Instruction.valid, Bool.and_eq_true] at hv
    have hshape : (Instruction.commitPed256 op).displayChars ++ rest
        = commitPed256Opcode.data ++ (' ' :: (op.displayChars ++ (';' :: rest))) := by
      simp [Instruction.displayChars]
    rw [hshape]
    unfold Instruction.parseChars
    rw [@splitWhile_append (fun c => c.isAlphanum || c == '.') commitPed256Opcode.data
      (' ' :: (op.displayChars ++ (';' :: rest))) (by decide) (by rfl)]
    rw [if_pos rfl]
    rw [show (' ' :: (op.displayChars ++ (';' :: rest)))
      = [' '] ++ (op.displayChars ++ (';' :: rest)) from rfl]
    rw [expectChars_append]
    simp only [Option.some_bind]
    rw [BinaryOperation_parse_display hv.1.1 hv.1.2 (by rfl)]
    simp only [Option.some_bind]
    rw [show (';' :: rest) = [';'] ++ rest from rfl]
    rw [expectChars_append]
    rfl
  | hashPsd4 op =>
    simp only [Instruction.valid, Bool.and_eq_true] at hv
    have hshape : (Instruction.hashPsd4 op).displayChars ++ rest
        = hashPsd4Opcode.data ++ (' ' :: (op.displayChars ++ (';' :: rest))) := by
      simp [Instruction.displayChars]
    rw [hshape]
    unfold Instruction.parseChars
    rw [@splitWhile_append (fun c => c.isAlphanum || c == '.') hashPsd4Opcode.data
      (' ' :: (op.displayChars ++ (';' :: rest))) (by decide) (by rfl)]
    rw [if_neg (show ¬(hashPsd4Opcode.data = commitPed256Opcode.data) by decide)]
    rw [if_pos rfl]
    rw [show (' ' :: (op.displayChars ++ (';' :: rest)))
      = [' '] ++ (op.displayChars ++ (';' :: rest)) from rfl]
    rw [expectChars_append]
    simp only [Option.some_bind]
    rw [UnaryOperation_parse_display hv.1 (by rfl)]
    simp only [Option.some_bind]
    rw [show (';' :: rest) = [';'] ++ rest from rfl]
    rw [expectChars_append]
    rfl

/-! ## Byte round-trip lemmas -/

theorem modeFromByte_toNat (m : Mode) : modeFromByte m.toNat = some m := by
  cases m <;> rfl

theorem widthFromIdx_idx (w : IntWidth) : widthFromIdx w.idx = some w := by
  cases w <;> rfl

theorem signedOfNat_emod {w : IntWidth} {x : Int}
    (hlo : -((2 ^ (w.bits - 1) : Nat) : Int) ≤ x)
    (hhi : x < ((2 ^ (w.bits - 1) : Nat) : Int)) :
    signedOfNat w (x % ((2 ^ w.bits : Nat) : Int)).toNat = x := by
  cases w <;>
    (simp only [signedOfNat, IntWidth.bits] at *
     norm_num at *
     split <;> omega)

theorem Literal_fromBytes_toBytes {l : Literal} {rest : List Nat} (hv : l.valid = true) :
    Literal.fromBytes (l.toBytes ++ rest) = some (l, rest) := by
  cases l with
  | address s m =>
    simp only [Literal.valid, Bool.and_eq_true, decide_eq_true_eq, List.all_eq_true] at hv
    obtain ⟨⟨hlen, _⟩, _⟩ := hv
    show Literal.fromBytes (0 :: m.toNat :: (charsToBytes s.data ++ rest)) = _
    simp only [Literal.fromBytes]
    rw [modeFromByte_toNat]
    simp only [Option.some_bind, if_pos rfl, if_true]
    rw [show (63 : Nat) = s.data.length from hlen.symm, readChars_append]
    rfl
  | boolean b m =>
    show Literal.fromBytes (1 :: m.toNat :: ((if b then 1 else 0) :: rest)) = _
    simp only [Literal.fromBytes]
    rw [modeFromByte_toNat]
    simp only [Option.some_bind]
    norm_num
    cases b <;> rfl
  | field x m =>
    simp only [Literal.valid, decide_eq_true_eq] at hv
    show Literal.fromBytes (2 :: m.toNat :: (natToLEBytes 32 x ++ rest)) = _
    simp only [Literal.fromBytes]
    rw [modeFromByte_toNat]
    simp only [Option.some_bind]
    norm_num
    rw [readBytes_append (length_natToLEBytes 32 x)]
    exact ⟨_, rfl, leBytesToNat_natToLEBytes (by
      have h := hv
      unfold baseFieldModulus at h
      norm_num
      omega)⟩
  | group x m =>
    simp only [Literal.valid, decide_eq_true_eq] at hv
    show Literal.fromBytes (3 :: m.toNat :: (natToLEBytes 32 x ++ rest)) = _
    simp only [Literal.fromBytes]
    rw [modeFromByte_toNat]
    simp only [Option.some_bind]
    norm_num
    rw [readBytes_append (length_natToLEBytes 32 x)]
    exact ⟨_, rfl, leBytesToNat_natToLEBytes (by
      have h := hv
      unfold baseFieldModulus at h
      norm_num
      omega)⟩
  | intS w x m =>
    simp only [Literal.valid, Bool.and_eq_true, decide_eq_true_eq] at hv
    obtain ⟨hlo, hhi⟩ := hv
    show Literal.fromBytes ((4 + w.idx) :: m.toNat ::
      (natToLEBytes (w.bits / 8) (x % ((2 ^ w.bits : Nat) : Int)).toNat ++ rest)) = _
    simp only [Literal.fromBytes]
    rw [modeFromByte_toNat]
    simp only [Option.some_bind]
    cases w
    all_goals (
      norm_num [widthFromIdx, IntWidth.idx, IntWidth.bits] at *
      refine ⟨_, readBytes_append (length_natToLEBytes _ _), ?_⟩
      rw [leBytesToNat_natToLEBytes (by norm_num; omega)]
      simp only [signedOfNat, IntWidth.bits]
      norm_num
      split <;> omega)
  | intU w x m =>
    simp only [Literal.valid, decide_eq_true_eq] at hv
    show Literal.fromBytes ((9 + w.idx) :: m.toNat ::
      (natToLEBytes (w.bits / 8) x ++ rest)) = _
    simp only [Literal.fromBytes]
    rw [modeFromByte_toNat]
    simp only [Option.some_bind]
    cases w
    all_goals (
      norm_num [widthFromIdx, IntWidth.idx, IntWidth.bits] at *
      exact ⟨_, readBytes_append (length_natToLEBytes _ _),
        leBytesToNat_natToLEBytes (by norm_num; omega)⟩)
  | scalar x m =>
    simp only [Literal.valid, decide_eq_true_eq] at hv
    show Literal.fromBytes (14 :: m.toNat :: (natToLEBytes 32 x ++ rest)) = _
    simp only [Literal.fromBytes]
    rw [modeFromByte_toNat]
    simp only [Option.some_bind]
    norm_num
    rw [readBytes_append (length_natToLEBytes 32 x)]
    exact ⟨_, rfl, leBytesToNat_natToLEBytes (by
      have h := hv
      unfold scalarFieldModulus at h
      norm_num
      omega)⟩
  | string s m =>
    simp only [Literal.valid, Bool.and_eq_true, decide_eq_true_eq, List.all_eq_true] at hv
    show Literal.fromBytes (15 :: m.toNat ::
      ((natToLEBytes 4 s.data.length ++ charsToBytes s.data) ++ rest)) = _
    simp only [Literal.fromBytes]
    rw [modeFromByte_toNat]
    simp only [Option.some_bind]
    norm_num
    rw [readBytes_append (length_natToLEBytes 4 s.length)]
    simp only [Option.some_bind]
    rw [leBytesToNat_natToLEBytes (by
      have he : s.length = s.data.length := rfl
      have h2 := hv.2
      norm_num at h2 ⊢
      omega)]
    rw [show s.length = s.data.length from rfl, readChars_append]
    rfl

theorem Operand_fromBytes_toBytes {o : Operand} {rest : List Nat} (hv : o.valid = true) :
    Operand.fromBytes (o.toBytes ++ rest) = some (o, rest) := by
  cases o with
  | literal l =>
    show Operand.fromBytes (0 :: (l.toBytes ++ rest)) = _
    simp only [Operand.fromBytes, if_pos rfl, if_true]
    rw [Literal_fromBytes_toBytes hv]
    rfl
  | register i =>
    simp only [Operand.valid, decide_eq_true_eq] at hv
    show Operand.fromBytes (1 :: (natToLEBytes 4 i ++ rest)) = _
    simp only [Operand.fromBytes]
    norm_num
    rw [readBytes_append (length_natToLEBytes 4 i)]
    exact ⟨_, rfl, leBytesToNat_natToLEBytes (by norm_num; omega)⟩

theorem BinaryOperation_fromBytes_toBytes {op : BinaryOperation} {rest : List Nat}
    (h1 : op.first.valid = true) (h2 : op.second.valid = true)
    (hd : op.destination < 2 ^ 32) :
    BinaryOperation.fromBytes (op.toBytes ++ rest) = some (op, rest) := by
  have hshape : op.toBytes ++ rest
      = op.first.toBytes ++ (op.second.toBytes ++ (natToLEBytes 4 op.destination ++ rest)) := by
    simp [BinaryOperation.toBytes]
  rw [hshape]
  unfold BinaryOperation.fromBytes
  rw [Operand_fromBytes_toBytes h1]
  simp only [Option.some_bind]
  rw [Operand_fromBytes_toBytes h2]
  simp only [Option.some_bind]
  rw [readBytes_append (length_natToLEBytes 4 op.destination)]
  simp only [Option.map_some']
  rw [leBytesToNat_natToLEBytes (by norm_num; omega)]

theorem UnaryOperation_fromBytes_toBytes {op : UnaryOperation} {rest : List Nat}
    (h1 : op.operand.valid = true) (hd : op.destination < 2 ^ 32) :
    UnaryOperation.fromBytes (op.toBytes ++ rest) = some (op, rest) := by
  have hshape : op.toBytes ++ rest
      = op.operand.toBytes ++ (natToLEBytes 4 op.destination ++ rest) := by
    simp [UnaryOperation.toBytes]
  rw [hshape]
  unfold UnaryOperation.fromBytes
  rw [Operand_fromBytes_toBytes h1]
  simp only [Option.some_bind]
  rw [readBytes_append (length_natToLEBytes 4 op.destination)]
  simp only [Option.map_some']
  rw [leBytesToNat_natToLEBytes (by norm_num; omega)]

theorem Instruction_fromBytes_toBytes {i : Instruction} {rest : List Nat}
    (hv : i.valid = true) :
    Instruction.fromBytes (i.toBytes ++ rest) = some (i, rest) := by
  cases i with
  | commitPed256 op =>
    simp only [Instruction.valid, Bool.and_eq_true, decide_eq_true_eq] at hv
    show Instruction.fromBytes (0 :: (op.toBytes ++ rest)) = _
    simp only [Instruction.fromBytes, if_pos rfl, if_true]
    rw [BinaryOperation_fromBytes_toBytes hv.1.1 hv.1.2 hv.2]
    rfl
  | hashPsd4 op =>
    simp only [Instruction.valid, Bool.and_eq_true, decide_eq_true_eq] at hv
    show Instruction.fromBytes (1 :: (op.toBytes ++ rest)) = _
    simp only [Instruction.fromBytes]
    norm_num
    rw [UnaryOperation_fromBytes_toBytes hv.1 hv.2]

/-! ## ProgramID lemmas -/

theorem validIdent_length {s : String} (hv : Console.validIdent s = true) :
    s.data.length < 2 ^ 32 := by
  unfold Console.validIdent at hv
  cases hd : s.data with
  | nil => rw [hd] at hv; exact absurd hv (by decide)
  | cons c tl =>
    rw [hd] at hv
    simp only [Bool.and_eq_true, decide_eq_true_eq] at hv
    exact hv.2

theorem identChar_of_valid {s : String} (hv : Console.validIdent s = true) :
    ∃ c tl, s.data = c :: tl ∧ c.isAlpha = true
      ∧ (∀ d ∈ tl, Console.isIdentChar d = true) := by
  unfold Console.validIdent at hv
  cases hd : s.data with
  | nil => rw [hd] at hv; exact absurd hv (by decide)
  | cons c tl =>
    rw [hd] at hv
    simp only [Bool.and_eq_true, List.all_eq_true, decide_eq_true_eq] at hv
    exact ⟨c, tl, rfl, hv.1.1, hv.1.2⟩

theorem parseIdentifier_display {s : String} {rest : List Char}
    (hv : Console.validIdent s = true)
    (hstop : headStops Console.isIdentChar rest = true) :
    Console.parseIdentifier (s.data ++ rest) = some (s, rest) := by
  obtain ⟨c, tl, hd, halpha, hall⟩ := identChar_of_valid hv
  rw [hd]
  show Console.parseIdentifier (c :: (tl ++ rest)) = _
  simp only [Console.parseIdentifier]
  rw [if_pos halpha]
  rw [splitWhile_append hall hstop]
  rw [show String.mk (c :: tl) = s from by rw [← hd]]

theorem ProgramID_display_data (id : Console.ProgramID) :
    (Console.ProgramID.display id).data
      = id.name.data ++ ('.' :: id.network.data) := by
  unfold Console.ProgramID.display
  rw [String.data_append, String.data_append]
  simp

theorem ProgramID_parseChars_display {id : Console.ProgramID}
    (hv : id.valid = true) :
    Console.ProgramID.parseChars (Console.ProgramID.display id).data
      = some (id, []) := by
  simp only [Console.ProgramID.valid, Bool.and_eq_true] at hv
  rw [ProgramID_display_data]
  unfold Console.ProgramID.parseChars
  rw [parseIdentifier_display hv.1 (by rfl)]
  simp only [Option.some_bind]
  rw [show ('.' :: id.network.data) = ['.'] ++ id.network.data from rfl]
  rw [expectChars_append]
  simp only [Option.some_bind]
  rw [show id.network.data = id.network.data ++ [] from by simp]
  rw [parseIdentifier_display hv.2 (by rfl)]
  rfl

theorem ProgramID_fromStr_display {id : Console.ProgramID} (hv : id.valid = true) :
    Console.ProgramID.fromStr (Console.ProgramID.display id) = .ok id := by
  unfold Console.ProgramID.fromStr
  rw [ProgramID_parseChars_display hv]

theorem ProgramID_fromBytes_toBytes {id : Console.ProgramID} {rest : List Nat}
    (hv : id.valid = true) :
    Console.ProgramID.fromBytes (Console.ProgramID.toBytes id ++ rest)
      = some (id, rest) := by
  simp only [Console.ProgramID.valid, Bool.and_eq_true] at hv
  have hn : id.name.data.length < 2 ^ 32 := validIdent_length hv.1
  have hw : id.network.data.length < 2 ^ 32 := validIdent_length hv.2
  have hshape : Console.ProgramID.toBytes id ++ rest
      = natToLEBytes 4 id.name.data.length ++ (charsToBytes id.name.data
        ++ (natToLEBytes 4 id.network.data.length ++ (charsToBytes id.network.data ++ rest))) := by
    simp [Console.ProgramID.toBytes]
  rw [hshape]
  unfold Console.ProgramID.fromBytes
  rw [readBytes_append (length_natToLEBytes 4 id.name.data.length)]
  simp only [Option.some_bind]
  rw [leBytesToNat_natToLEBytes (by
    have he : id.name.length = id.name.data.length := rfl
    norm_num at hn ⊢
    omega)]
  rw [readChars_append]
  simp only [Option.some_bind]
  rw [readBytes_append (length_natToLEBytes 4 id.network.data.length)]
  simp only [Option.some_bind]
  rw [leBytesToNat_natToLEBytes (by
    have he : id.network.length = id.network.data.length := rfl
    norm_num at hw ⊢
    omega)]
  rw [readChars_append]
  rfl

/-! ## Register store lemmas -/

theorem lookup_append_none {rs : Registers} {i : Nat}
    (h : Registers.lookup rs i = none) :
    Registers.lookup (rs ++ [(i, none)]) i = some none := by
  induction rs with
  | nil => simp [Registers.lookup]
  | cons p tl ih =>
    obtain ⟨j, v⟩ := p
    simp only [Registers.lookup, List.cons_append] at h ⊢
    by_cases hj : j = i
    · rw [if_pos hj] at h; exact absurd h (by simp)
    · rw [if_neg hj] at h ⊢
      exact ih h

theorem lookup_set {rs : Registers} {i : Nat} {v : Value} {w : Option Value}
    (h : Registers.lookup rs i = some w) :
    Registers.lookup (Registers.set rs i v) i = some (some v) := by
  induction rs with
  | nil => simp [Registers.lookup] at h
  | cons p tl ih =>
    obtain ⟨j, u⟩ := p
    simp only [Registers.lookup, Registers.set] at h ⊢
    by_cases hj : j = i
    · rw [if_pos hj]
      simp only [Registers.lookup, if_pos hj]
    · rw [if_neg hj] at h
      rw [if_neg hj]
      simp only [Registers.lookup, if_neg hj]
      exact ih h

theorem assign_of_unassigned {rs : Registers} {i : Nat} (v : Value)
    (h : Registers.lookup rs i = some none) :
    Registers.assign rs i v = .ok (Registers.set rs i v) := by
  unfold Registers.assign
  rw [h]

theorem load_set {rs : Registers} {i : Nat} {v : Value}
    (h : Registers.lookup rs i = some none) :
    Registers.load (Registers.set rs i v) i = .ok v := by
  unfold Registers.load
  rw [lookup_set h]

/-! ## Console find lemmas -/

theorem Plaintext_find_nil (pt : Console.Plaintext) :
    Console.Plaintext.find pt [] = .ok pt := by
  cases pt <;> simp [Console.Plaintext.find]

theorem Value_find_record_entry {r : Console.Record} {n : String}
    {rest : List String} {e : Console.Entry} (h : Console.lookupEntry r n = some e) :
    Console.Value.find (.record r) (n :: rest)
      = (Console.Plaintext.find e.plaintext rest).map Console.Value.plaintext := by
  cases e with
  | Constant pt =>
    cases hf : Console.Plaintext.find pt rest with
    | ok q =>
      simp [Console.Value.find, Console.Record.find, h, hf, Console.Entry.plaintext,
        Except.map]
    | error msg =>
      simp [Console.Value.find, Console.Record.find, h, hf, Console.Entry.plaintext,
        Except.map]
  | Public pt =>
    cases hf : Console.Plaintext.find pt rest with
    | ok q =>
      simp [Console.Value.find, Console.Record.find, h, hf, Console.Entry.plaintext,
        Except.map]
    | error msg =>
      simp [Console.Value.find, Console.Record.find, h, hf, Console.Entry.plaintext,
        Except.map]
  | Private pt =>
    cases hf : Console.Plaintext.find pt rest with
    | ok q =>
      simp [Console.Value.find, Console.Record.find, h, hf, Console.Entry.plaintext,
        Except.map]
    | error msg =>
      simp [Console.Value.find, Console.Record.find, h, hf, Console.Entry.plaintext,
        Except.map]

/-! ## Mode fold lemmas -/

theorem modeMax_constant (m : Mode) : Mode.max .Constant m = m := by
  cases m <;> rfl

theorem modeFold_singleton (m : Mode) : modeFold [m] = m := by
  simp [modeFold, modeMax_constant]

/-! ## Evaluate inversion lemmas -/

theorem assign_ok_inv {regs regs' : Registers} {i : Nat} {v : Value}
    (h : Registers.assign regs i v = .ok regs') :
    Registers.lookup regs i = some none ∧ regs' = Registers.set regs i v := by
  unfold Registers.assign at h
  cases hl : Registers.lookup regs i with
  | none => rw [hl] at h; exact absurd h (by simp)
  | some w =>
    cases w with
    | none =>
      rw [hl] at h
      simp only [Except.ok.injEq] at h
      exact ⟨rfl, h.symm⟩
    | some u => rw [hl] at h; exact absurd h (by simp)

theorem commit_eval_ok {op : BinaryOperation} {regs regs' : Registers}
    (h : (Instruction.commitPed256 op).evaluate regs = .ok regs') :
    ∃ v1 r rm, op.first.resolve regs = .ok v1
      ∧ op.second.resolve regs = .ok (.literal (.scalar r rm))
      ∧ v1.toBitsLE.length ≤ 256
      ∧ Registers.lookup regs op.destination = some none
      ∧ regs' = Registers.set regs op.destination
          (.literal (.group (pedersen256Commit v1.toBitsLE r)
            (modeFold (v1.leafModes ++ [rm])))) := by
  cases hr1 : op.first.resolve regs with
  | error e => simp only [Instruction.evaluate, hr1] at h; exact absurd h (by simp)
  | ok v1 =>
    cases hr2 : op.second.resolve regs with
    | error e => simp only [Instruction.evaluate, hr1, hr2] at h; exact absurd h (by simp)
    | ok v2 =>
      cases v2 with
      | composite name ls => simp only [Instruction.evaluate, hr1, hr2] at h; exact absurd h (by simp)
      | literal l =>
        cases l with
        | scalar r rm =>
          simp only [Instruction.evaluate, hr1, hr2] at h
          by_cases hlen : 256 < (Value.toBitsLE v1).length
          · rw [if_pos hlen] at h; exact absurd h (by simp)
          · rw [if_neg hlen] at h
            obtain ⟨hl, hset⟩ := assign_ok_inv h
            exact ⟨v1, r, rm, rfl, rfl, by omega, hl, hset⟩
        | address a b => simp only [Instruction.evaluate, hr1, hr2] at h; exact absurd h (by simp)
        | boolean a b => simp only [Instruction.evaluate, hr1, hr2] at h; exact absurd h (by simp)
        | field a b => simp only [Instruction.evaluate, hr1, hr2] at h; exact absurd h (by simp)
        | group a b => simp only [Instruction.evaluate, hr1, hr2] at h; exact absurd h (by simp)
        | intS a b c => simp only [Instruction.evaluate, hr1, hr2] at h; exact absurd h (by simp)
        | intU a b c => simp only [Instruction.evaluate, hr1, hr2] at h; exact absurd h (by simp)
        | string a b => simp only [Instruction.evaluate, hr1, hr2] at h; exact absurd h (by simp)

theorem hash_eval_ok {op : UnaryOperation} {regs regs' : Registers}
    (h : (Instruction.hashPsd4 op).evaluate regs = .ok regs') :
    ∃ v, op.operand.resolve regs = .ok v
      ∧ Registers.lookup regs op.destination = some none
      ∧ ((∃ l, v = .literal l ∧ psd4Rejected l = false
            ∧ regs' = Registers.set regs op.destination
                (.literal (.field (poseidon4Hash l.toFields) l.mode)))
        ∨ (∃ name ls, v = .composite name ls
            ∧ regs' = Registers.set regs op.destination
                (.literal (.field (poseidon4Hash (ls.flatMap Literal.toFields))
                  (modeFold (ls.map Literal.mode)))))) := by
  cases hr : op.operand.resolve regs with
  | error e => simp only [Instruction.evaluate, hr] at h; exact absurd h (by simp)
  | ok v =>
    cases v with
    | composite name ls =>
      simp only [Instruction.evaluate, hr] at h
      obtain ⟨hl, hset⟩ := assign_ok_inv h
      exact ⟨_, rfl, hl, Or.inr ⟨name, ls, rfl, hset⟩⟩
    | literal l =>
      cases l with
      | address a b => simp only [Instruction.evaluate, hr] at h; exact absurd h (by simp)
      | boolean a b => simp only [Instruction.evaluate, hr] at h; exact absurd h (by simp)
      | group a b => simp only [Instruction.evaluate, hr] at h; exact absurd h (by simp)
      | field a b =>
        simp only [Instruction.evaluate, hr] at h
        obtain ⟨hl, hset⟩ := assign_ok_inv h
        exact ⟨_, rfl, hl, Or.inl ⟨_, rfl, rfl, hset⟩⟩
      | scalar a b =>
        simp only [Instruction.evaluate, hr] at h
        obtain ⟨hl, hset⟩ := assign_ok_inv h
        exact ⟨_, rfl, hl, Or.inl ⟨_, rfl, rfl, hset⟩⟩
      | intS a b c =>
        simp only [Instruction.evaluate, hr] at h
        obtain ⟨hl, hset⟩ := assign_ok_inv h
        exact ⟨_, rfl, hl, Or.inl ⟨_, rfl, rfl, hset⟩⟩
      | intU a b c =>
        simp only [Instruction.evaluate, hr] at h
        obtain ⟨hl, hset⟩ := assign_ok_inv h
        exact ⟨_, rfl, hl, Or.inl ⟨_, rfl, rfl, hset⟩⟩
      | string a b =>
        simp only [Instruction.evaluate, hr] at h
        obtain ⟨hl, hset⟩ := assign_ok_inv h
        exact ⟨_, rfl, hl, Or.inl ⟨_, rfl, rfl, hset⟩⟩

/-! ## Claim theorems -/

/-- Claim C1: for every evaluation of a commit.ped256 instruction whose
committed value (first operand) has a flattened bit-length over 256,
evaluation halts with the message naming the 256-bit bound; a value of at
most 256 bits is accepted and a Group output is assigned to the
destination register. -/
theorem claim_c1_ped256_bound {op : BinaryOperation} {regs : Registers}
    {v1 : Value} {r : Nat} {rm : Mode}
    (h1 : op.first.resolve regs = .ok v1)
    (h2 : op.second.resolve regs = .ok (.literal (.scalar r rm))) :
    (256 < v1.toBitsLE.length →
      (Instruction.commitPed256 op).evaluate regs
        = .error ("The Pedersen hash input cannot exceed 256 bits."))
    ∧ (v1.toBitsLE.length ≤ 256 →
        Registers.lookup regs op.destination = some none →
        ∃ g m regs', (Instruction.commitPed256 op).evaluate regs = .ok regs'
          ∧ Registers.load regs' op.destination = .ok (.literal (.group g m))) := by
  constructor
  · intro hlen
    simp only [Instruction.evaluate, h1, h2]
    rw [if_pos hlen]
    rfl
  · intro hlen hdef
    simp only [Instruction.evaluate, h1, h2]
    rw [if_neg (by omega)]
    exact ⟨_, _, _, assign_of_unassigned _ hdef, load_set hdef⟩

/-- Witness for C1: a 35-byte string (280 bits) halts with the bound
message; a field element (253 bits) is accepted and a Group output lands in
the destination register. -/
theorem claim_c1_ped256_bound_witness :
    ((Instruction.commitPed256 ⟨.register 0, .register 1, 2⟩).evaluate
        [(0, some (Value.literal (.string ("aaaaaaaaaaaaaaaaaaaaaaaaaaaaaaaaaaa") .Private))),
         (1, some (Value.literal (.scalar 1 .Private))), (2, none)]
      = .error ("The Pedersen hash input cannot exceed 256 bits."))
    ∧ ∃ g m regs', (Instruction.commitPed256 ⟨.register 0, .register 1, 2⟩).evaluate
          [(0, some (Value.literal (.field 1 .Public))),
           (1, some (Value.literal (.scalar 1 .Private))), (2, none)] = .ok regs'
        ∧ Registers.load regs' 2 = .ok (Value.literal (.group g m)) :=
  ⟨(@claim_c1_ped256_bound ⟨.register 0, .register 1, 2⟩
      [(0, some (Value.literal (.string ("aaaaaaaaaaaaaaaaaaaaaaaaaaaaaaaaaaa") .Private))),
       (1, some (Value.literal (.scalar 1 .Private))), (2, none)]
      (Value.literal (.string ("aaaaaaaaaaaaaaaaaaaaaaaaaaaaaaaaaaa") .Private)) 1 .Private
      (by decide) (by decide)).1 (by decide),
   (@claim_c1_ped256_bound ⟨.register 0, .register 1, 2⟩
      [(0, some (Value.literal (.field 1 .Public))),
       (1, some (Value.literal (.scalar 1 .Private))), (2, none)]
      (Value.literal (.field 1 .Public)) 1 .Private
      (by decide) (by decide)).2 (by decide) (by decide)⟩

/-- Claim C2: hash.psd4 halts with the invalid-instruction message on
Boolean, Group or Address literal operands; field, scalar, integer and
string literals are accepted and produce a Field output; composite values
are accepted by flattening each leaf to field elements. -/
theorem claim_c2_psd4_domain {op : UnaryOperation} {regs : Registers} :
    (∀ l : Literal, op.operand.resolve regs = .ok (.literal l) →
       psd4Rejected l = true →
       (Instruction.hashPsd4 op).evaluate regs
         = .error ("Invalid \x27hash.psd4\x27 instruction"))
    ∧ (∀ l : Literal, op.operand.resolve regs = .ok (.literal l) →
        psd4Rejected l = false →
        Registers.lookup regs op.destination = some none →
        ∃ regs', (Instruction.hashPsd4 op).evaluate regs = .ok regs'
          ∧ Registers.load regs' op.destination
              = .ok (.literal (.field (poseidon4Hash l.toFields) l.mode)))
    ∧ (∀ name ls, op.operand.resolve regs = .ok (.composite name ls) →
        Registers.lookup regs op.destination = some none →
        ∃ regs', (Instruction.hashPsd4 op).evaluate regs = .ok regs'
          ∧ Registers.load regs' op.destination
              = .ok (.literal (.field (poseidon4Hash (ls.flatMap Literal.toFields))
                  (modeFold (ls.map Literal.mode))))) := by
  refine ⟨?_, ?_, ?_⟩
  · intro l h hrj
    cases l with
    | boolean a b => simp only [Instruction.evaluate, h]; rfl
    | group a b => simp only [Instruction.evaluate, h]; rfl
    | address a b => simp only [Instruction.evaluate, h]; rfl
    | field a b => simp [psd4Rejected] at hrj
    | scalar a b => simp [psd4Rejected] at hrj
    | intS a b c => simp [psd4Rejected] at hrj
    | intU a b c => simp [psd4Rejected] at hrj
    | string a b => simp [psd4Rejected] at hrj
  · intro l h hrj hdef
    cases l with
    | boolean a b => simp [psd4Rejected] at hrj
    | group a b => simp [psd4Rejected] at hrj
    | address a b => simp [psd4Rejected] at hrj
    | field a b =>
      simp only [Instruction.evaluate, h]
      exact ⟨_, assign_of_unassigned _ hdef, load_set hdef⟩
    | scalar a b =>
      simp only [Instruction.evaluate, h]
      exact ⟨_, assign_of_unassigned _ hdef, load_set hdef⟩
    | intS a b c =>
      simp only [Instruction.evaluate, h]
      exact ⟨_, assign_of_unassigned _ hdef, load_set hdef⟩
    | intU a b c =>
      simp only [Instruction.evaluate, h]
      exact ⟨_, assign_of_unassigned _ hdef, load_set hdef⟩
    | string a b =>
      simp only [Instruction.evaluate, h]
      exact ⟨_, assign_of_unassigned _ hdef, load_set hdef⟩
  · intro name ls h hdef
    simp only [Instruction.evaluate, h]
    exact ⟨_, assign_of_unassigned _ hdef, load_set hdef⟩

/-- Witness for C2: a Boolean operand halts; a field operand hashes to a
Field output; a two-field composite is accepted. -/
theorem claim_c2_psd4_domain_witness :
    ((Instruction.hashPsd4 ⟨.register 0, 1⟩).evaluate
        [(0, some (Value.literal (.boolean true .Private))), (1, none)]
      = .error ("Invalid \x27hash.psd4\x27 instruction"))
    ∧ (∃ regs', (Instruction.hashPsd4 ⟨.register 0, 1⟩).evaluate
          [(0, some (Value.literal (.field 1 .Public))), (1, none)] = .ok regs'
        ∧ Registers.load regs' 1
            = .ok (.literal (.field (poseidon4Hash (Literal.field 1 .Public).toFields)
                .Public)))
    ∧ ∃ regs', (Instruction.hashPsd4 ⟨.register 0, 1⟩).evaluate
          [(0, some (Value.composite ("message")
              [.field 1 .Public, .field 2 .Private])), (1, none)] = .ok regs'
        ∧ Registers.load regs' 1
            = .ok (.literal (.field (poseidon4Hash
                ([Literal.field 1 .Public, Literal.field 2 .Private].flatMap
                  Literal.toFields))
                (modeFold ([Literal.field 1 .Public,
                  Literal.field 2 .Private].map Literal.mode)))) :=
  ⟨(@claim_c2_psd4_domain ⟨.register 0, 1⟩
      [(0, some (Value.literal (.boolean true .Private))), (1, none)]).1
      (.boolean true .Private) (by decide) (by decide),
   (@claim_c2_psd4_domain ⟨.register 0, 1⟩
      [(0, some (Value.literal (.field 1 .Public))), (1, none)]).2.1
      (.field 1 .Public) (by decide) (by decide) (by decide),
   (@claim_c2_psd4_domain ⟨.register 0, 1⟩
      [(0, some (Value.composite ("message")
          [.field 1 .Public, .field 2 .Private])), (1, none)]).2.2
      ("message") [.field 1 .Public, .field 2 .Private] (by decide) (by decide)⟩

/-- Claim C3: for every instruction evaluation that succeeds, the Mode of
the output literal equals the maximum, in the order
Constant < Public < Private, over the Modes of every literal leaf consumed
from the resolved operands. -/
theorem claim_c3_mode_propagation {i : Instruction} {regs regs' : Registers}
    (h : i.evaluate regs = .ok regs') :
    ∃ out : Literal, Registers.load regs' i.destination = .ok (.literal out)
      ∧ out.mode = modeFold (i.consumedLeafModes regs) := by
  cases i with
  | commitPed256 op =>
    obtain ⟨v1, r, rm, hr1, hr2, _, hl, hset⟩ := commit_eval_ok h
    refine ⟨_, by rw [hset]; exact load_set hl, ?_⟩
    simp [Instruction.consumedLeafModes, Instruction.operands,
      BinaryOperation.operands, hr1, hr2, Value.leafModes, Literal.mode]
  | hashPsd4 op =>
    obtain ⟨v, hr, hl, hcase⟩ := hash_eval_ok h
    rcases hcase with ⟨l, rfl, hrj, hset⟩ | ⟨name, ls, rfl, hset⟩
    · refine ⟨_, by rw [hset]; exact load_set hl, ?_⟩
      simp [Instruction.consumedLeafModes, Instruction.operands,
        UnaryOperation.operands, hr, Value.leafModes, modeFold_singleton,
        Literal.mode]
    · refine ⟨_, by rw [hset]; exact load_set hl, ?_⟩
      simp [Instruction.consumedLeafModes, Instruction.operands,
        UnaryOperation.operands, hr, Value.leafModes, Literal.mode]

/-- Witness for C3: a composite with one Public and one Private leaf plus a
scalar randomness operand yields a Private output. -/
theorem claim_c3_mode_propagation_witness :
    ∃ out : Literal,
      Registers.load
        (Registers.set
          [(0, some (Value.composite ("message")
              [.boolean true .Public, .boolean false .Private])),
           (1, some (Value.literal (.scalar 1 .Constant))), (2, none)] 2
          (Value.literal (.group
            (pedersen256Commit
              (Value.composite ("message")
                [.boolean true .Public, .boolean false .Private]).toBitsLE 1)
            .Private))) 2
        = .ok (.literal out)
      ∧ out.mode
          = modeFold ((Instruction.commitPed256
              ⟨.register 0, .register 1, 2⟩).consumedLeafModes
            [(0, some (Value.composite ("message")
                [.boolean true .Public, .boolean false .Private])),
             (1, some (Value.literal (.scalar 1 .Constant))), (2, none)]) :=
  @claim_c3_mode_propagation (Instruction.commitPed256 ⟨.register 0, .register 1, 2⟩)
    [(0, some (Value.composite ("message")
        [.boolean true .Public, .boolean false .Private])),
     (1, some (Value.literal (.scalar 1 .Constant))), (2, none)]
    (Registers.set
      [(0, some (Value.composite ("message")
          [.boolean true .Public, .boolean false .Private])),
       (1, some (Value.literal (.scalar 1 .Constant))), (2, none)] 2
      (Value.literal (.group
        (pedersen256Commit
          (Value.composite ("message")
            [.boolean true .Public, .boolean false .Private]).toBitsLE 1)
        .Private)))
    (by decide)

/-- Claim C4: decoding the canonical little-endian byte encoding and
parsing the textual rendering are identities on every valid instruction,
and the same two round-trip laws hold for every valid ProgramID. -/
theorem claim_c4_roundtrip :
    (∀ (i : Instruction) (rest : List Char), i.valid = true →
        Instruction.parseChars (i.displayChars ++ rest) = some (i, rest))
    ∧ (∀ (i : Instruction) (rest : List Nat), i.valid = true →
        Instruction.fromBytes (i.toBytes ++ rest) = some (i, rest))
    ∧ (∀ id : Console.ProgramID, id.valid = true →
        Console.ProgramID.fromStr (Console.ProgramID.display id) = .ok id)
    ∧ (∀ (id : Console.ProgramID) (rest : List Nat), id.valid = true →
        Console.ProgramID.fromBytes (Console.ProgramID.toBytes id ++ rest)
          = some (id, rest)) :=
  ⟨fun _ _ h => Instruction_parse_display h,
   fun _ _ h => Instruction_fromBytes_toBytes h,
   fun _ h => ProgramID_fromStr_display h,
   fun _ _ h => ProgramID_fromBytes_toBytes h⟩

/-- Witness for C4: both round trips at a concrete commit.ped256
instruction with a field immediate and a register operand, and at the
program ID bar.aleo. -/
theorem claim_c4_roundtrip_witness :
    Instruction.parseChars
        ((Instruction.commitPed256 ⟨.literal (.field 5 .Public), .register 1, 2⟩).displayChars
          ++ [])
      = some (Instruction.commitPed256 ⟨.literal (.field 5 .Public), .register 1, 2⟩, [])
    ∧ Instruction.fromBytes
        ((Instruction.commitPed256 ⟨.literal (.field 5 .Public), .register 1, 2⟩).toBytes
          ++ [])
      = some (Instruction.commitPed256 ⟨.literal (.field 5 .Public), .register 1, 2⟩, [])
    ∧ Console.ProgramID.fromStr (Console.ProgramID.display ⟨"bar", "aleo"⟩)
        = .ok ⟨"bar", "aleo"⟩
    ∧ Console.ProgramID.fromBytes (Console.ProgramID.toBytes ⟨"bar", "aleo"⟩ ++ [])
        = some (⟨"bar", "aleo"⟩, []) :=
  ⟨claim_c4_roundtrip.1 _ [] (by decide),
   claim_c4_roundtrip.2.1 _ [] (by decide),
   claim_c4_roundtrip.2.2.1 ⟨"bar", "aleo"⟩ (by decide),
   claim_c4_roundtrip.2.2.2 ⟨"bar", "aleo"⟩ [] (by decide)⟩

/-- Claim C5: on a Record, find with a non-empty path whose first step
names an existing entry returns the entry's inner plaintext wrapped in
Value.plaintext — identically for all three storage visibilities, the
entry-level visibility being discarded — and continues the remaining path
as plain plaintext traversal. -/
theorem claim_c5_record_find {r : Console.Record} {n : String}
    {rest : List String} {e : Console.Entry}
    (h : Console.lookupEntry r n = some e) :
    Console.Value.find (.record r) (n :: rest)
      = (Console.Plaintext.find e.plaintext rest).map Console.Value.plaintext
    ∧ ∀ (r₂ : Console.Record) (e₂ : Console.Entry),
        Console.lookupEntry r₂ n = some e₂ → e₂.plaintext = e.plaintext →
        Console.Value.find (.record r₂) (n :: rest)
          = Console.Value.find (.record r) (n :: rest) :=
  ⟨Value_find_record_entry h,
   fun _ _ h₂ he => by
     rw [Value_find_record_entry h₂, Value_find_record_entry h, he]⟩

/-- Witness for C5: a Private entry is unwrapped into a plain Plaintext
result. -/
theorem claim_c5_record_find_witness :
    Console.Value.find
        (.record [(("owner"), .Private (.literal (.boolean true .Private)))])
        [("owner")]
      = (Console.Plaintext.find
          (Console.Entry.Private (.literal (.boolean true .Private))).plaintext
          []).map Console.Value.plaintext :=
  (@claim_c5_record_find
    [(("owner"), .Private (.literal (.boolean true .Private)))] ("owner") []
    (Console.Entry.Private (.literal (.boolean true .Private))) rfl).1

/-- Claim C6: ProgramID.from_str accepts bar.aleo yielding name bar and
network aleo, rejects inputs without the separator or network segment such
as foo, rejects trailing characters after the network identifier, and
Display reproduces the exact input text. -/
theorem claim_c6_programid_examples :
    Console.ProgramID.fromStr ("bar.aleo") = .ok ⟨"bar", "aleo"⟩
    ∧ Console.ProgramID.fromStr ("foo") = .error ("Failed to parse string.")
    ∧ Console.ProgramID.display ⟨"bar", "aleo"⟩ = "bar.aleo"
    ∧ (∀ (s : String) (id : Console.ProgramID) (c : Char) (tl : List Char),
        Console.ProgramID.parseChars s.data = some (id, c :: tl) →
        Console.ProgramID.fromStr s
          = .error ("Failed to parse string. Found invalid character in remainder")) := by
  refine ⟨by decide, by decide, by decide, ?_⟩
  intro s id c tl h
  unfold Console.ProgramID.fromStr
  rw [h]

/-- Witness for C6: trailing characters after the network segment are
rejected. -/
theorem claim_c6_programid_examples_witness :
    Console.ProgramID.fromStr ("bar.aleo\x21")
      = .error ("Failed to parse string. Found invalid character in remainder") :=
  claim_c6_programid_examples.2.2.2 ("bar.aleo\x21") ⟨"bar", "aleo"⟩ '\x21' []
    (by decide)

/-- Claim C7 counterexample: find with an empty path does not return the
whole value unchanged on a Record — the record arm of Value::find only ever
produces a Plaintext result or an error, and an empty path errors. -/
theorem claim_c7_counterexample :
    Console.Value.find
        (.record [(("owner"), .Private (.literal (.boolean true .Private)))]) []
      ≠ .ok (.record [(("owner"), .Private (.literal (.boolean true .Private)))]) := by
  intro h
  exact Except.noConfusion h

/-- Claim C7 amended: find with an empty path returns the whole value
unchanged when the value is a Plaintext; on a Record the empty path fails
with the empty-path error (a Record result is never returned). -/
theorem claim_c7_empty_path_amended :
    (∀ pt, Console.Value.find (.plaintext pt) [] = .ok (.plaintext pt))
    ∧ ∀ r : Console.Record,
        Console.Value.find (.record r) []
          = .error ("Failed to locate entry: the path is empty") := by
  constructor
  · intro pt
    show (Console.Plaintext.find pt []).map Console.Value.plaintext = _
    rw [Plaintext_find_nil]
    rfl
  · intro r
    rfl

/-- Claim C8: the register store lifecycle discipline — double define
errors, assign requires defined-and-unassigned, load requires assigned,
and a loaded value is always one that was assigned (no implicit
defaults). -/
theorem claim_c8_register_discipline :
    (∀ (rs : Registers) (i : Nat) (st : Option Value),
        Registers.lookup rs i = some st → ∃ e, Registers.define rs i = .error e)
    ∧ (∀ (rs rs' : Registers) (i : Nat), Registers.define rs i = .ok rs' →
        ∃ e, Registers.define rs' i = .error e)
    ∧ (∀ (rs : Registers) (i : Nat) (v : Value), Registers.lookup rs i = none →
        ∃ e, Registers.assign rs i v = .error e)
    ∧ (∀ (rs : Registers) (i : Nat) (v w : Value),
        Registers.lookup rs i = some (some w) →
        ∃ e, Registers.assign rs i v = .error e)
    ∧ (∀ (rs : Registers) (i : Nat) (v : Value), Registers.lookup rs i = some none →
        Registers.assign rs i v = .ok (Registers.set rs i v)
          ∧ Registers.load (Registers.set rs i v) i = .ok v)
    ∧ (∀ (rs : Registers) (i : Nat), Registers.lookup rs i = some none →
        ∃ e, Registers.load rs i = .error e)
    ∧ (∀ (rs : Registers) (i : Nat), Registers.lookup rs i = none →
        ∃ e, Registers.load rs i = .error e)
    ∧ (∀ (rs : Registers) (i : Nat) (v : Value), Registers.load rs i = .ok v →
        Registers.lookup rs i = some (some v)) := by
  refine ⟨?_, ?_, ?_, ?_, ?_, ?_, ?_, ?_⟩
  · intro rs i st h
    exact ⟨_, by unfold Registers.define; rw [h]⟩
  · intro rs rs' i h
    unfold Registers.define at h
    cases hl : Registers.lookup rs i with
    | some w => rw [hl] at h; exact absurd h (by simp)
    | none =>
      rw [hl] at h
      simp only [Except.ok.injEq] at h
      refine ⟨("Register is already defined"), ?_⟩
      unfold Registers.define
      rw [← h, lookup_append_none hl]
  · intro rs i v h
    exact ⟨_, by unfold Registers.assign; rw [h]⟩
  · intro rs i v w h
    exact ⟨_, by unfold Registers.assign; rw [h]⟩
  · intro rs i v h
    exact ⟨assign_of_unassigned _ h, load_set h⟩
  · intro rs i h
    exact ⟨_, by unfold Registers.load; rw [h]⟩
  · intro rs i h
    exact ⟨_, by unfold Registers.load; rw [h]⟩
  · intro rs i v h
    unfold Registers.load at h
    cases hl : Registers.lookup rs i with
    | none => rw [hl] at h; exact absurd h (by simp)
    | some w =>
      cases w with
      | none => rw [hl] at h; exact absurd h (by simp)
      | some u =>
        rw [hl] at h
        simp only [Except.ok.injEq] at h
        rw [h]

/-- Witness for C8: the discipline at a concrete one-register file. -/
theorem claim_c8_register_discipline_witness :
    (∃ e, Registers.define [(0, (none : Option Value))] 0 = .error e)
    ∧ (∃ e, Registers.assign ([] : Registers) 0
        (Value.literal (.boolean true .Private)) = .error e)
    ∧ (∃ e, Registers.assign [(0, some (Value.literal (.boolean true .Private)))] 0
        (Value.literal (.boolean false .Public)) = .error e)
    ∧ (Registers.assign [(0, (none : Option Value))] 0
          (Value.literal (.boolean true .Private))
        = .ok (Registers.set [(0, (none : Option Value))] 0
            (Value.literal (.boolean true .Private)))
        ∧ Registers.load (Registers.set [(0, (none : Option Value))] 0
            (Value.literal (.boolean true .Private))) 0
          = .ok (Value.literal (.boolean true .Private)))
    ∧ (∃ e, Registers.load [(0, (none : Option Value))] 0 = .error e) :=
  ⟨claim_c8_register_discipline.1 _ 0 none (by decide),
   claim_c8_register_discipline.2.2.1 _ 0 _ (by decide),
   claim_c8_register_discipline.2.2.2.1 _ 0 _
     (Value.literal (.boolean true .Private)) (by decide),
   claim_c8_register_discipline.2.2.2.2.1 _ 0 _ (by decide),
   claim_c8_register_discipline.2.2.2.2.2.1 _ 0 (by decide)⟩

/-- Claim C9: CommitPed256's mnemonic is commit.ped256 and it is a binary
operation whose second operand is the scalar commitment randomness (not
flattened into the committed bits); HashPsd4's mnemonic is hash.psd4 and it
is unary; instruction dispatch parses the commit.ped256 text into the
CommitPed256 variant. -/
theorem claim_c9_opcodes :
    commitPed256Opcode = "commit.ped256"
    ∧ hashPsd4Opcode = "hash.psd4"
    ∧ (∀ op : BinaryOperation, (Instruction.commitPed256 op).opcode = "commit.ped256"
        ∧ (Instruction.commitPed256 op).operands.length = 2)
    ∧ (∀ op : UnaryOperation, (Instruction.hashPsd4 op).opcode = "hash.psd4"
        ∧ (Instruction.hashPsd4 op).operands.length = 1)
    ∧ Instruction.parse ("commit.ped256 r0 r1 into r2;")
        = some (.commitPed256 ⟨.register 0, .register 1, 2⟩, [])
    ∧ (∀ (op : BinaryOperation) (regs regs' : Registers),
        (Instruction.commitPed256 op).evaluate regs = .ok regs' →
        ∃ v1 r rm, op.first.resolve regs = .ok v1
          ∧ op.second.resolve regs = .ok (.literal (.scalar r rm))
          ∧ Registers.load regs' op.destination
              = .ok (.literal (.group (pedersen256Commit v1.toBitsLE r)
                  (modeFold (v1.leafModes ++ [rm]))))) := by
  refine ⟨rfl, rfl, fun op => ⟨rfl, rfl⟩, fun op => ⟨rfl, rfl⟩, by decide, ?_⟩
  intro op regs regs' h
  obtain ⟨v1, r, rm, hr1, hr2, _, hl, hset⟩ := commit_eval_ok h
  exact ⟨v1, r, rm, hr1, hr2, by rw [hset]; exact load_set hl⟩

/-- Witness for C9: a successful concrete commit.ped256 evaluation has a
scalar second operand and commits only the first operand's bits. -/
theorem claim_c9_opcodes_witness :
    ∃ v1 r rm,
      Operand.resolve
          [(0, some (Value.literal (.boolean true .Public))),
           (1, some (Value.literal (.scalar 3 .Private))), (2, none)]
          (Operand.register 0) = .ok v1
      ∧ Operand.resolve
          [(0, some (Value.literal (.boolean true .Public))),
           (1, some (Value.literal (.scalar 3 .Private))), (2, none)]
          (Operand.register 1) = .ok (.literal (.scalar r rm))
      ∧ Registers.load
          (Registers.set
            [(0, some (Value.literal (.boolean true .Public))),
             (1, some (Value.literal (.scalar 3 .Private))), (2, none)] 2
            (Value.literal (.group (pedersen256Commit [true] 3) .Private))) 2
          = .ok (.literal (.group (pedersen256Commit v1.toBitsLE r)
              (modeFold (v1.leafModes ++ [rm])))) :=
  claim_c9_opcodes.2.2.2.2.2 ⟨.register 0, .register 1, 2⟩
    [(0, some (Value.literal (.boolean true .Public))),
     (1, some (Value.literal (.scalar 3 .Private))), (2, none)]
    (Registers.set
      [(0, some (Value.literal (.boolean true .Public))),
       (1, some (Value.literal (.scalar 3 .Private))), (2, none)] 2
      (Value.literal (.group (pedersen256Commit [true] 3) .Private)))
    (by decide)

/-- Claim C10: Integer::from_field keeps only the lower w bits of the field
element without any range or carry check, so from_field is a left inverse
of to_field on w-bit integers, while two distinct field elements agreeing
on their low w bits map to the same integer. -/
theorem claim_c10_from_field :
    (∀ w : Nat, w < Circuit.baseFieldSizeInBits →
      ∀ i : Circuit.CInteger w, i.bitsLE.length = w →
        Circuit.CInteger.fromField w (Circuit.CInteger.toField w i) = i)
    ∧ (∀ (w : Nat) (f g : Circuit.FieldEl), f ≠ g →
        f.val % 2 ^ w = g.val % 2 ^ w →
        Circuit.CInteger.fromField w f = Circuit.CInteger.fromField w g) := by
  constructor
  · intro w hw i hlen
    unfold Circuit.CInteger.fromField Circuit.CInteger.toField
      Circuit.FieldEl.toLowerBitsLE
    have hlt : leBitsToNat i.bitsLE < baseFieldModulus := by
      have h1 : leBitsToNat i.bitsLE < 2 ^ w := by
        have hb := @leBitsToNat_lt i.bitsLE
        rwa [hlen] at hb
      have h2 : (2 : Nat) ^ w ≤ 2 ^ 252 := Nat.pow_le_pow_right (by omega) (by
        unfold Circuit.baseFieldSizeInBits at hw
        omega)
      have h3 : (2 : Nat) ^ 252 < baseFieldModulus := by norm_num [baseFieldModulus]
      omega
    rw [Nat.mod_eq_of_lt hlt, natToLEBits_leBitsToNat hlen]
  · intro w f g _ hmod
    unfold Circuit.CInteger.fromField Circuit.FieldEl.toLowerBitsLE
    congr 1
    rw [← natToLEBits_mod w f.val, ← natToLEBits_mod w g.val, hmod]

/-- Witness for C10: the 8-bit round trip at a concrete bit pattern, and
the field elements 1 and 257 mapping to the same 8-bit integer. -/
theorem claim_c10_from_field_witness :
    Circuit.CInteger.fromField 8 (Circuit.CInteger.toField 8
        ⟨[true, false, false, false, false, false, false, true]⟩)
      = ⟨[true, false, false, false, false, false, false, true]⟩
    ∧ Circuit.CInteger.fromField 8 ⟨1⟩ = Circuit.CInteger.fromField 8 ⟨257⟩ :=
  ⟨claim_c10_from_field.1 8 (by decide)
      ⟨[true, false, false, false, false, false, false, true]⟩ (by decide),
   claim_c10_from_field.2 8 ⟨1⟩ ⟨257⟩ (by decide) (by decide)⟩

end SnarkVM
